import Mathlib

/-!
Verification development for the Companion Action Scheduling & Control
Dispatch Engine.

The definitions below are a shallow embedding of
`src/lib/Controls/ActionRunner.ts` (class `ActionRunner`) and of the
relevant parts of `src/lib/Controls/Controller.ts` (`pressControl`,
`rotateControl`, `updateFeedbackValues`).  JavaScript `Record` objects
are embedded as association lists in insertion order (assignment
overwrites in place, `Object.entries` iterates in insertion order),
`Map`/`Set` as lists in insertion order, machine numbers as `Int`
(delays are whole milliseconds), and the asynchronous timer callbacks
of `setTimeout` as explicit state-transition functions that fire one
pending timer at a time (Node runs them one at a time on the single
event-loop thread).
-/

namespace Companion

/-- Value of the `delay` field of an `ActionInstance` as the scheduler can
observe it at runtime: absent (`undefined`), a numeric value, the number
`NaN`, or a string.  A string carries the result of JavaScript
`Number(...)` conversion (`none` when that conversion yields NaN) together
with whether it is the empty string (the only falsy string). -/
inductive DelayField where
  | undef : DelayField
  | num : Int → DelayField
  | nan : DelayField
  | str : Option Int → Bool → DelayField
deriving DecidableEq

/-- JavaScript truthiness test `!action.delay`: `undefined`, `0`, `NaN`
and the empty string are falsy. -/
def DelayField.falsy : DelayField → Bool
  | .undef => true
  | .num n => n == 0
  | .nan => true
  | .str _ isEmpty => isEmpty

/-- JavaScript `Number(...)` coercion of the delay field; `none` stands
for NaN (`Number(undefined)` is NaN). -/
def DelayField.toNumber : DelayField → Option Int
  | .undef => none
  | .num n => some n
  | .nan => none
  | .str v _ => v

/-- One configured action, with the fields `runMultipleActions` and
`#runAction` read (`src/lib/Controls/ActionRunner.ts`; the TS type lives
in an external declaration file): `id`, the connection id `instance`
(here `inst`, since `instance` is a reserved word in Lean), the `delay`
field and the `disabled` flag. -/
structure ActionInstance where
  id : String
  inst : String
  delay : DelayField
  disabled : Bool
deriving DecidableEq

/-- Source lines 166–167: `let this_delay = !action.delay ? 0 :
Number(action.delay); if (isNaN(this_delay)) this_delay = 0`. -/
def ActionInstance.coercedDelay (a : ActionInstance) : Int :=
  match (if a.delay.falsy then some 0 else a.delay.toNumber) with
  | none => 0
  | some n => n

/-- A control as the scheduler sees it through the registry: its id,
whether it exposes a `setActionsRunning` function (the capability test on
line 137 of ActionRunner.ts), and its `running` / `pushed` flags (data
model of the spec, §3). -/
structure ControlState where
  id : String
  hasSetActionsRunning : Bool
  running : Bool
  pushed : Bool
deriving DecidableEq

/-- Modelled from the spec: the control classes implementing
`setActionsRunning(running, skipUp)` are not under `src/` (only callers
are).  Per §4.1 and §6 of the spec the call records the running
indicator on the control and, when signalling not-running without
`skipUp`, resolves any in-progress press as released (clears the pushed
flag). -/
def ControlState.setActionsRunning (c : ControlState) (running : Bool) (skipUp : Bool) : ControlState :=
  { c with running := running
         , pushed := if !running && !skipUp then false else c.pushed }

/-- One entry of the `#timers_running` map: an opaque timer handle
(`tid`, allocated fresh), the owning control id (the map's value), and
the captured action and delay of the `setTimeout` callback. -/
structure PendingTimer where
  tid : Nat
  controlId : String
  action : ActionInstance
  delay : Int
deriving DecidableEq

/-- Observable outcome of one `#runAction` call: handed to the internal
module, handed to a resolved connection, or dropped because the
connection id resolved to nothing. -/
inductive DispatchEvent where
  | internalExec : ActionInstance → DispatchEvent
  | connectorRun : String → ActionInstance → DispatchEvent
  | droppedMissing : ActionInstance → DispatchEvent
deriving DecidableEq

/-- Underlying action of a dispatch event. -/
def DispatchEvent.action : DispatchEvent → ActionInstance
  | .internalExec a => a
  | .connectorRun _ a => a
  | .droppedMissing a => a

/-- Whole observable state of the `ActionRunner` instance together with
its collaborators: the pending-timer map, the fresh-handle supply, the
control registry (keyed by id, hence no duplicate ids in well-formed
states), the connection registry (id mapped to whether its `actionRun`
promise resolves (`true`) or rejects (`false`)), and three event logs:
dispatches (`#runAction` outcomes in call order), signals
(`setActionsRunning` invocations as control id and running value), and
logged warnings. -/
structure RunnerState where
  timers : List PendingTimer
  nextTid : Nat
  controls : List ControlState
  connectors : List (String × Bool)
  dispatches : List DispatchEvent
  signals : List (String × Bool)
  logs : List String
deriving DecidableEq

/-- Lookup in a JavaScript record embedded as an association list. -/
def recGet {β : Type} : List (String × β) → String → Option β
  | [], _ => none
  | (k, v) :: rest, key => if k == key then some v else recGet rest key

/-- Assignment in a JavaScript record: overwrite in place if the key
exists, append otherwise. -/
def recSet {β : Type} : List (String × β) → String → β → List (String × β)
  | [], key, v => [(key, v)]
  | (k, w) :: rest, key, v =>
    if k == key then (k, v) :: rest else (k, w) :: recSet rest key v

/-- Lookup with a default, the `values[item.controlId] || {}` idiom
(the default stands for the fresh empty object). -/
def recGetD {β : Type} (g : List (String × β)) (k : String) (d : β) : β :=
  match recGet g k with
  | some v => v
  | none => d

/-- Log message of `#runAction` when the connection id is unresolved. -/
def msgMissingInstance : String := "trying to run action on a missing instance."

/-- Log message of the `.catch` handler around `actionRun`. -/
def msgActionError : String := "Error executing action"

/-- Source lines 114–127, `#runAction`: the reserved id `internal` goes
synchronously to the internal module; otherwise the connection is
resolved by id, an unresolved id is logged and dropped, and a rejection
of the handed-off `actionRun` promise is caught and logged.  The
function is total: no branch propagates an error. -/
def runAction (s : RunnerState) (action : ActionInstance) (_controlId : String) : RunnerState :=
  if action.inst == "internal" then
    { s with dispatches := s.dispatches ++ [.internalExec action] }
  else
    match recGet s.connectors action.inst with
    | some ok =>
      if ok then
        { s with dispatches := s.dispatches ++ [.connectorRun action.inst action] }
      else
        { s with dispatches := s.dispatches ++ [.connectorRun action.inst action]
               , logs := s.logs ++ [msgActionError] }
    | none =>
      { s with dispatches := s.dispatches ++ [.droppedMissing action]
             , logs := s.logs ++ [msgMissingInstance] }

/-- Expected `#runAction` outcome for an action given the connection
registry (used to state theorems; `runAction` realises exactly this
event). -/
def dispatchEventFor (connectors : List (String × Bool)) (a : ActionInstance) : DispatchEvent :=
  if a.inst == "internal" then .internalExec a
  else
    match recGet connectors a.inst with
    | some _ => .connectorRun a.inst a
    | none => .droppedMissing a

/-- Source lines 135–140, `#setControlIsRunning`: resolve the control by
id; if it exists and exposes `setActionsRunning`, invoke it (recorded in
the signal log) — otherwise do nothing.  The registry is keyed by id, so
the map update touches exactly the found control. -/
def RunnerState.setControlIsRunning (s : RunnerState) (controlId : String) (running : Bool) (skipUp : Bool) : RunnerState :=
  match s.controls.find? (fun c => c.id == controlId) with
  | some control =>
    if control.hasSetActionsRunning then
      { s with controls := s.controls.map (fun c =>
                 if c.id == controlId then c.setActionsRunning running skipUp else c)
             , signals := s.signals ++ [(controlId, running)] }
    else s
  | none => s

/-- Source lines 163–179: the first loop of `runMultipleActions`,
producing the successive assignments `effective_delays[action.id] =
tmp_delay` in order, starting from the accumulator `tmp_delay`. -/
def effectiveDelaysList (relative_delay : Bool) : List ActionInstance → Int → List (String × Int)
  | [], _ => []
  | action :: rest, tmp_delay =>
    let this_delay := action.coercedDelay
    let tmp2 := if relative_delay then tmp_delay + this_delay else this_delay
    (action.id, tmp2) :: effectiveDelaysList relative_delay rest tmp2

/-- Replay a list of record assignments into a record. -/
def buildRecord (l : List (String × Int)) : List (String × Int) :=
  l.foldl (fun r p => recSet r p.1 p.2) []

/-- The `effective_delays` record of `runMultipleActions` for an
already-filtered action list. -/
def effectiveDelaysFor (actions : List ActionInstance) (relative_delay : Bool) : List (String × Int) :=
  buildRecord (effectiveDelaysList relative_delay actions 0)

/-- Source line 195: `effective_delays[action.id] === undefined ? 0 :
effective_delays[action.id]`. -/
def delayTime (eff : List (String × Int)) (a : ActionInstance) : Int :=
  match recGet eff a.id with
  | none => 0
  | some d => d

/-- Source lines 202–214: allocate a timer handle, register the callback
and record it in `#timers_running` against the owning control id. -/
def scheduleTimer (s : RunnerState) (controlId : String) (a : ActionInstance) (delay : Int) : RunnerState :=
  { s with timers := s.timers ++ [⟨s.nextTid, controlId, a, delay⟩]
         , nextTid := s.nextTid + 1 }

/-- Source lines 193–221: the second loop of `runMultipleActions`,
threading the state and the `has_delayed` flag. -/
def runActionsLoop (eff : List (String × Int)) (controlId : String) :
    List ActionInstance → RunnerState → Bool → RunnerState × Bool
  | [], s, has_delayed => (s, has_delayed)
  | action :: rest, s, has_delayed =>
    let dt := delayTime eff action
    if dt > 0 then
      runActionsLoop eff controlId rest (scheduleTimer s controlId action dt) true
    else
      runActionsLoop eff controlId rest (runAction s action controlId) has_delayed

/-- Source lines 150–227, `runMultipleActions`: filter out disabled
actions, return if none remain, build the `effective_delays` record,
dispatch each action inline when its effective delay is not positive and
schedule it as a timer otherwise, and finally signal the control as
running when at least one timer was scheduled.  (The `extra2` record of
lines 181–191 is passed through to dispatch opaquely — page and bank are
decoded by the external id codec — and is not modelled beyond the
control id.) -/
def RunnerState.runMultipleActions (s : RunnerState) (actions0 : List ActionInstance)
    (controlId : String) (relative_delay : Bool) : RunnerState :=
  let actions := actions0.filter (fun act => !act.disabled)
  if actions.length == 0 then s
  else
    let eff := effectiveDelaysFor actions relative_delay
    let r := runActionsLoop eff controlId actions s false
    if r.2 then r.1.setControlIsRunning controlId true false else r.1

/-- Source lines 202–212: the `setTimeout` callback of a pending timer.
It dispatches the captured action, deletes its own handle from
`#timers_running`, and signals the control as not running only when no
other pending timer belongs to the same control. -/
def RunnerState.fireTimer (s : RunnerState) (t : PendingTimer) : RunnerState :=
  let s1 := runAction s t.action t.controlId
  let s2 := { s1 with timers := s1.timers.filter (fun t2 => t2.tid != t.tid) }
  if s2.timers.any (fun t2 => t2.controlId == t.controlId) then s2
  else s2.setControlIsRunning t.controlId false false

/-- Source lines 69–86, `abortControlDelayed`: delete (and cancel) every
pending timer owned by the control, then signal the control with
`setActionsRunning(false, skipUp)` — unconditionally, whether or not any
timer was cleared. -/
def RunnerState.abortControlDelayed (s : RunnerState) (controlId : String) (skipUp : Bool) : RunnerState :=
  let s1 := { s with timers := s.timers.filter (fun t => t.controlId != controlId) }
  s1.setControlIsRunning controlId false skipUp

/-- First-occurrence deduplication, the iteration order of a JavaScript
`Set` filled while walking the timer map. -/
def dedupFirst : List String → List String
  | [] => []
  | x :: rest => x :: (dedupFirst rest).filter (fun y => y != x)

/-- Source lines 45–61, `abortAllDelayed`: cancel every pending timer,
collecting the distinct owning control ids, then signal each affected
control once. -/
def RunnerState.abortAllDelayed (s : RunnerState) : RunnerState :=
  let affected := dedupFirst (s.timers.map (fun t => t.controlId))
  let s1 := { s with timers := [] }
  affected.foldl (fun acc controlId => acc.setControlIsRunning controlId false false) s1

/-- Modelled from the spec: the grid size constant `MAX_BUTTONS` lives
in `Resources/Constants.js`, which is not under `src/`; the spec only
calls the grid fixed-size, and no claim depends on the value, so the
usual 8-by-4 Companion grid is used. -/
def MAX_BUTTONS : Nat := 32

/-- Modelled from the spec: the id codec (`Shared/ControlId.js`) is not
under `src/`; §6 gives the grammar as the string form of bank
addresses. -/
def CreateBankControlId (page bank : Nat) : String :=
  "bank:" ++ Nat.repr page ++ "-" ++ Nat.repr bank

/-- Source lines 94–106, `abortPageDelayed`: call `abortControlDelayed`
for every bank address of the page except the skipped ids. -/
def RunnerState.abortPageDelayed (s : RunnerState) (page : Nat) (skipControlIds : Option (List String)) : RunnerState :=
  (List.range MAX_BUTTONS).foldl
    (fun acc i =>
      let controlId := CreateBankControlId page (i + 1)
      let skip := match skipControlIds with
        | some ids => ids.contains controlId
        | none => false
      if skip then acc else acc.abortControlDelayed controlId false)
    s

/-- Modelled from the spec: the control-side press handling (control
classes are not under `src/`) marks the control as pushed; the data
model of §3 records a pushed flag per control.  Only this effect is
needed to exhibit reachable states with a pushed, timer-free control. -/
def RunnerState.pressModel (s : RunnerState) (controlId : String) : RunnerState :=
  { s with controls := s.controls.map (fun c =>
      if c.id == controlId then { c with pushed := true } else c) }

/-- One externally triggerable operation of the scheduler. -/
inductive Op where
  | runActs : List ActionInstance → String → Bool → Op
  | fire : Nat → Op
  | abortControl : String → Bool → Op
  | abortPage : Nat → Option (List String) → Op
  | abortAll : Op
  | press : String → Op
deriving DecidableEq

/-- Small-step semantics: apply one operation.  A `fire` of a handle
that is not pending does nothing (a cancelled `setTimeout` never
fires). -/
def stepOp (s : RunnerState) : Op → RunnerState
  | .runActs actions controlId rel => s.runMultipleActions actions controlId rel
  | .fire tid =>
    match s.timers.find? (fun t => t.tid == tid) with
    | some t => s.fireTimer t
    | none => s
  | .abortControl controlId skipUp => s.abortControlDelayed controlId skipUp
  | .abortPage page skipIds => s.abortPageDelayed page skipIds
  | .abortAll => s.abortAllDelayed
  | .press controlId => s.pressModel controlId

/-- Run a sequence of operations. -/
def execOps (s : RunnerState) (ops : List Op) : RunnerState :=
  ops.foldl stepOp s

/-- Initial state: a quiescent scheduler over a given registry of
controls (all idle) and connections. -/
def initState (ctrls : List (String × Bool)) (conns : List (String × Bool)) : RunnerState :=
  { timers := []
  , nextTid := 0
  , controls := ctrls.map (fun p => ⟨p.1, p.2, false, false⟩)
  , connectors := conns
  , dispatches := []
  , signals := []
  , logs := [] }

/-- A raw trigger-system notification emitted on the trigger event bus
(`this.triggers.emit(...)` in Controller.ts); only `control_press` is
relevant to the modelled operations. -/
inductive TriggerEvent where
  | control_press : String → Bool → Option String → TriggerEvent
deriving DecidableEq

/-- A control as the dispatch coordinator sees it: its id and which
capability functions it exposes (`typeof control.x === 'function'`
probes of Controller.ts). -/
structure RegControl where
  id : String
  hasPressControl : Bool
  hasRotateControl : Bool
  hasFeedbacks : Bool
deriving DecidableEq

/-- A feedback value reported by a connection: a boolean or an opaque
advanced style fragment (routed opaquely, per §4.3 of the spec). -/
inductive FeedbackValue where
  | boolVal : Bool → FeedbackValue
  | styleVal : String → FeedbackValue
deriving DecidableEq

/-- One element of the batch handed to `updateFeedbackValues`:
`{controlId, id, value}` (source line 1046 reads `item.controlId`,
`item.id`, `item.value`). -/
structure FeedbackItem where
  controlId : String
  id : String
  value : FeedbackValue
deriving DecidableEq

/-- Observable state of the controls `Controller`: the registry plus
logs of the externally visible calls it makes — trigger-bus events,
`control.pressControl(pressed, deviceId)` invocations,
`control.rotateControl(direction, deviceId)` invocations, and
`control.feedbacks.updateFeedbackValues(instanceId, newValues)`
deliveries. -/
structure ControllerState where
  controls : List RegControl
  triggerEvents : List TriggerEvent
  pressCalls : List (String × Bool × Option String)
  rotateCalls : List (String × Bool × Option String)
  feedbackDeliveries : List (String × String × List (String × FeedbackValue))
deriving DecidableEq

/-- Source lines 939–950 of Controller.ts, `pressControl`: resolve the
control first; only when it exists and exposes `pressControl` emit the
`control_press` trigger event, invoke the control, and return true;
otherwise return false with no effect. -/
def ControllerState.pressControl (s : ControllerState) (controlId : String) (pressed : Bool) (deviceId : Option String) : ControllerState × Bool :=
  match s.controls.find? (fun c => c.id == controlId) with
  | some control =>
    if control.hasPressControl then
      ({ s with triggerEvents := s.triggerEvents ++ [.control_press controlId pressed deviceId]
              , pressCalls := s.pressCalls ++ [(controlId, pressed, deviceId)] }
       , true)
    else (s, false)
  | none => (s, false)

/-- Source lines 960–968 of Controller.ts, `rotateControl`: resolve the
control; when it exists and exposes `rotateControl` invoke it and return
true, else return false.  No trigger-bus event is emitted on either
path. -/
def ControllerState.rotateControl (s : ControllerState) (controlId : String) (direction : Bool) (deviceId : Option String) : ControllerState × Bool :=
  match s.controls.find? (fun c => c.id == controlId) with
  | some control =>
    if control.hasRotateControl then
      ({ s with rotateCalls := s.rotateCalls ++ [(controlId, direction, deviceId)] }, true)
    else (s, false)
  | none => (s, false)

/-- Source lines 1041–1046 of Controller.ts: the grouping loop of
`updateFeedbackValues`.  `values[item.controlId]` is created on first
use and `objForControl[item.id] = item.value` overwrites, so within one
control's group the last value wins per feedback id. -/
def groupFeedbackGo : List FeedbackItem → List (String × List (String × FeedbackValue)) → List (String × List (String × FeedbackValue))
  | [], values => values
  | item :: rest, values =>
    let objForControl := recGetD values item.controlId []
    groupFeedbackGo rest (recSet values item.controlId (recSet objForControl item.id item.value))

/-- The `values` record built by `updateFeedbackValues` from a batch. -/
def groupFeedbackValues (result : List FeedbackItem) : List (String × List (String × FeedbackValue)) :=
  groupFeedbackGo result []

/-- Source lines 1038–1055 of Controller.ts, `updateFeedbackValues`:
group the batch by control id, then for each group resolve the control
and, when it has a feedback store, forward exactly that group to it. -/
def ControllerState.updateFeedbackValues (s : ControllerState) (instanceId : String) (result : List FeedbackItem) : ControllerState :=
  let values := groupFeedbackValues result
  values.foldl
    (fun acc p =>
      match acc.controls.find? (fun c => c.id == p.1) with
      | some control =>
        if control.hasFeedbacks then
          { acc with feedbackDeliveries := acc.feedbackDeliveries ++ [(p.1, instanceId, p.2)] }
        else acc
      | none => acc)
    s

/-! ### Statement-side derived views -/

/-- The timers that the dispatch loop of `runMultipleActions` schedules
for an (already filtered) action list, given the first fresh timer
handle: one pending timer per action with positive effective delay, in
order, with consecutive handles. -/
def scheduledTimers (eff : List (String × Int)) (controlId : String) :
    List ActionInstance → Nat → List PendingTimer
  | [], _ => []
  | a :: rest, tid =>
    let d := delayTime eff a
    if d > 0 then ⟨tid, controlId, a, d⟩ :: scheduledTimers eff controlId rest (tid + 1)
    else scheduledTimers eff controlId rest tid

/-- Whether the registry resolves `controlId` to a control exposing
`setActionsRunning` (the guard of `#setControlIsRunning`). -/
def RunnerState.capableControl (s : RunnerState) (controlId : String) : Bool :=
  match s.controls.find? (fun c => c.id == controlId) with
  | some ctl => ctl.hasSetActionsRunning
  | none => false

/-! ### Frame lemmas -/

theorem runAction_frame (s : RunnerState) (a : ActionInstance) (cid : String) :
    (runAction s a cid).timers = s.timers ∧
    (runAction s a cid).nextTid = s.nextTid ∧
    (runAction s a cid).controls = s.controls ∧
    (runAction s a cid).connectors = s.connectors ∧
    (runAction s a cid).signals = s.signals ∧
    (runAction s a cid).dispatches = s.dispatches ++ [dispatchEventFor s.connectors a] := by
  unfold runAction dispatchEventFor
  split
  · simp
  · split
    · split <;> simp
    · simp

theorem scheduleTimer_frame (s : RunnerState) (cid : String) (a : ActionInstance) (d : Int) :
    (scheduleTimer s cid a d).timers = s.timers ++ [⟨s.nextTid, cid, a, d⟩] ∧
    (scheduleTimer s cid a d).nextTid = s.nextTid + 1 ∧
    (scheduleTimer s cid a d).controls = s.controls ∧
    (scheduleTimer s cid a d).connectors = s.connectors ∧
    (scheduleTimer s cid a d).signals = s.signals ∧
    (scheduleTimer s cid a d).dispatches = s.dispatches := by
  unfold scheduleTimer
  simp

theorem setControlIsRunning_frame (s : RunnerState) (cid : String) (b k : Bool) :
    (s.setControlIsRunning cid b k).timers = s.timers ∧
    (s.setControlIsRunning cid b k).nextTid = s.nextTid ∧
    (s.setControlIsRunning cid b k).connectors = s.connectors ∧
    (s.setControlIsRunning cid b k).dispatches = s.dispatches ∧
    (s.setControlIsRunning cid b k).logs = s.logs := by
  unfold RunnerState.setControlIsRunning
  split
  · split <;> simp
  · simp

theorem setControlIsRunning_signals (s : RunnerState) (cid : String) (b k : Bool) :
    (s.setControlIsRunning cid b k).signals
      = s.signals ++ (if s.capableControl cid then [(cid, b)] else []) := by
  unfold RunnerState.setControlIsRunning RunnerState.capableControl
  split
  · split <;> simp_all
  · simp_all

theorem setControlIsRunning_controls (s : RunnerState) (cid : String) (b k : Bool) :
    (s.setControlIsRunning cid b k).controls
      = if s.capableControl cid then
          s.controls.map (fun c => if c.id == cid then c.setActionsRunning b k else c)
        else s.controls := by
  unfold RunnerState.setControlIsRunning RunnerState.capableControl
  split
  · split <;> simp_all
  · simp_all

/-- Master characterisation of the dispatch loop: it appends the
scheduled timers, dispatches the non-delayed actions in order, leaves
the registry untouched, and reports whether any timer was scheduled. -/
theorem runActionsLoop_spec (eff : List (String × Int)) (cid : String) :
    ∀ (acts : List ActionInstance) (s : RunnerState) (hd : Bool),
      (runActionsLoop eff cid acts s hd).1.timers
          = s.timers ++ scheduledTimers eff cid acts s.nextTid ∧
      (runActionsLoop eff cid acts s hd).1.dispatches
          = s.dispatches
            ++ (acts.filter (fun a => decide (delayTime eff a ≤ 0))).map
                 (dispatchEventFor s.connectors) ∧
      (runActionsLoop eff cid acts s hd).1.controls = s.controls ∧
      (runActionsLoop eff cid acts s hd).1.connectors = s.connectors ∧
      (runActionsLoop eff cid acts s hd).1.signals = s.signals ∧
      (runActionsLoop eff cid acts s hd).1.nextTid
          = s.nextTid + (scheduledTimers eff cid acts s.nextTid).length ∧
      (runActionsLoop eff cid acts s hd).2
          = (hd || acts.any (fun a => decide (0 < delayTime eff a))) := by
  intro acts
  induction acts with
  | nil => intro s hd; simp [runActionsLoop, scheduledTimers]
  | cons a rest ih =>
    intro s hd
    by_cases hpos : delayTime eff a > 0
    · have hnotle : ¬ (delayTime eff a ≤ 0) := by omega
      have hloop : runActionsLoop eff cid (a :: rest) s hd
          = runActionsLoop eff cid rest (scheduleTimer s cid a (delayTime eff a)) true := by
        simp [runActionsLoop, hpos]
      obtain ⟨h1, h2, h3, h4, h5, h6, h7⟩ := ih (scheduleTimer s cid a (delayTime eff a)) true
      obtain ⟨g1, g2, g3, g4, g5, g6⟩ := scheduleTimer_frame s cid a (delayTime eff a)
      rw [hloop, h1, h2, h3, h4, h5, h6, h7, g1, g2, g3, g4, g5, g6]
      refine ⟨?_, ?_, rfl, rfl, rfl, ?_, ?_⟩
      · simp [scheduledTimers, hpos]
      · simp [List.filter_cons, hnotle]
      · simp only [scheduledTimers, hpos, if_pos]
        simp
        omega
      · simp [hpos]
    · have hle : delayTime eff a ≤ 0 := by omega
      have hloop : runActionsLoop eff cid (a :: rest) s hd
          = runActionsLoop eff cid rest (runAction s a cid) hd := by
        simp [runActionsLoop, hpos]
      obtain ⟨h1, h2, h3, h4, h5, h6, h7⟩ := ih (runAction s a cid) hd
      obtain ⟨g1, g2, g3, g4, g5, g6⟩ := runAction_frame s a cid
      rw [hloop, h1, h2, h3, h4, h5, h6, h7, g1, g2, g3, g4, g5, g6]
      refine ⟨?_, ?_, rfl, rfl, rfl, ?_, ?_⟩
      · simp [scheduledTimers, hpos]
      · simp [List.filter_cons, hle, List.append_assoc]
      · simp [scheduledTimers, hpos]
      · simp [hpos]

/-- The enabled (not disabled) actions of an input list, in input
order — the filtering step on line 156. -/
def enabledOf (actions0 : List ActionInstance) : List ActionInstance :=
  actions0.filter (fun act => !act.disabled)

theorem capableControl_congr (s1 s2 : RunnerState) (h : s1.controls = s2.controls) (x : String) :
    s1.capableControl x = s2.capableControl x := by
  unfold RunnerState.capableControl
  rw [h]

/-- Full characterisation of one `runMultipleActions` call. -/
theorem runMultipleActions_spec (s : RunnerState) (actions0 : List ActionInstance)
    (cid : String) (rel : Bool) :
    (s.runMultipleActions actions0 cid rel).timers
        = s.timers ++ scheduledTimers (effectiveDelaysFor (enabledOf actions0) rel) cid (enabledOf actions0) s.nextTid ∧
    (s.runMultipleActions actions0 cid rel).dispatches
        = s.dispatches
          ++ ((enabledOf actions0).filter
                (fun a => decide (delayTime (effectiveDelaysFor (enabledOf actions0) rel) a ≤ 0))).map
               (dispatchEventFor s.connectors) ∧
    (s.runMultipleActions actions0 cid rel).connectors = s.connectors ∧
    (s.runMultipleActions actions0 cid rel).nextTid
        = s.nextTid + (scheduledTimers (effectiveDelaysFor (enabledOf actions0) rel) cid (enabledOf actions0) s.nextTid).length ∧
    (s.runMultipleActions actions0 cid rel).signals
        = s.signals
          ++ (if ((enabledOf actions0).any
                   (fun a => decide (0 < delayTime (effectiveDelaysFor (enabledOf actions0) rel) a))
                 && s.capableControl cid) then [(cid, true)] else []) ∧
    (s.runMultipleActions actions0 cid rel).controls
        = (if ((enabledOf actions0).any
                (fun a => decide (0 < delayTime (effectiveDelaysFor (enabledOf actions0) rel) a))
              && s.capableControl cid) then
             s.controls.map (fun c => if c.id == cid then c.setActionsRunning true false else c)
           else s.controls) := by
  unfold RunnerState.runMultipleActions enabledOf
  by_cases hemp : (actions0.filter (fun act => !act.disabled)) = []
  · rw [hemp]
    simp [scheduledTimers]
  · have hlen : ((actions0.filter (fun act => !act.disabled)).length == 0) = false := by
      simp [List.length_eq_zero, hemp]
    simp only [hlen, Bool.false_eq_true, if_false]
    obtain ⟨h1, h2, h3, h4, h5, h6, h7⟩ :=
      runActionsLoop_spec (effectiveDelaysFor (actions0.filter (fun act => !act.disabled)) rel) cid
        (actions0.filter (fun act => !act.disabled)) s false
    have hcap :
        (runActionsLoop (effectiveDelaysFor (actions0.filter (fun act => !act.disabled)) rel) cid
            (actions0.filter (fun act => !act.disabled)) s false).1.capableControl cid
          = s.capableControl cid :=
      capableControl_congr _ _ h3 cid
    cases hhd : (runActionsLoop (effectiveDelaysFor (actions0.filter (fun act => !act.disabled)) rel) cid
        (actions0.filter (fun act => !act.disabled)) s false).2 with
    | false =>
      simp only [hhd, Bool.false_eq_true, if_false]
      rw [hhd] at h7
      have hany : ((actions0.filter (fun act => !act.disabled)).any
          (fun a => decide (0 < delayTime (effectiveDelaysFor (actions0.filter (fun act => !act.disabled)) rel) a))) = false := by
        simpa using h7.symm
      rw [hany]
      simp [h1, h2, h3, h4, h5, h6]
    | true =>
      simp only [hhd, if_true]
      rw [hhd] at h7
      have hany : ((actions0.filter (fun act => !act.disabled)).any
          (fun a => decide (0 < delayTime (effectiveDelaysFor (actions0.filter (fun act => !act.disabled)) rel) a))) = true := by
        simpa using h7.symm
      rw [hany]
      obtain ⟨f1, f2, f3, f4, f5⟩ := setControlIsRunning_frame
        (runActionsLoop (effectiveDelaysFor (actions0.filter (fun act => !act.disabled)) rel) cid
          (actions0.filter (fun act => !act.disabled)) s false).1 cid true false
      rw [f1, f2, f3, f4]
      rw [setControlIsRunning_signals, setControlIsRunning_controls, hcap]
      cases hc : s.capableControl cid with
      | false => simp [h1, h2, h3, h4, h5, h6]
      | true => simp [h1, h2, h3, h4, h5, h6]

/-! ### Claim C2 -/

/-- C2: for every input list, every enabled action whose effective delay
is at most 0 (values missing or non-numeric having been coerced to 0 by
`coercedDelay` inside `delayTime`/`effectiveDelaysFor`) is dispatched
synchronously during the `runMultipleActions` call itself, appended to
the dispatch log in original input-list order relative to the other
synchronous actions, before the call returns. -/
theorem sync_actions_dispatched_in_order (s : RunnerState) (actions0 : List ActionInstance)
    (controlId : String) (relative_delay : Bool) :
    (s.runMultipleActions actions0 controlId relative_delay).dispatches
      = s.dispatches
        ++ ((enabledOf actions0).filter
              (fun a => decide (delayTime (effectiveDelaysFor (enabledOf actions0) relative_delay) a ≤ 0))).map
             (dispatchEventFor s.connectors) :=
  (runMultipleActions_spec s actions0 controlId relative_delay).2.1

/-! ### Claim C8 -/

/-- C8: dispatching a single action to a non-internal connector never
escapes the scheduler.  An unresolvable connector id is logged and the
action dropped; a rejecting handler is caught and logged; `runAction` is
a total function in either case (no error value is propagated), and the
dispatch loop still dispatches or schedules every sibling action of the
same run, whatever the connector registry holds. -/
theorem dispatch_error_isolation (s : RunnerState) (a : ActionInstance) (cid : String) :
    (a.inst ≠ "internal" → recGet s.connectors a.inst = none →
       runAction s a cid
         = { s with dispatches := s.dispatches ++ [DispatchEvent.droppedMissing a]
                  , logs := s.logs ++ [msgMissingInstance] }) ∧
    (a.inst ≠ "internal" → recGet s.connectors a.inst = some false →
       runAction s a cid
         = { s with dispatches := s.dispatches ++ [DispatchEvent.connectorRun a.inst a]
                  , logs := s.logs ++ [msgActionError] }) ∧
    (∀ (actions0 : List ActionInstance) (rel : Bool),
       (s.runMultipleActions actions0 cid rel).dispatches.length
           = s.dispatches.length
             + ((enabledOf actions0).filter
                  (fun a2 => decide (delayTime (effectiveDelaysFor (enabledOf actions0) rel) a2 ≤ 0))).length ∧
       (s.runMultipleActions actions0 cid rel).timers.length
           = s.timers.length
             + (scheduledTimers (effectiveDelaysFor (enabledOf actions0) rel) cid (enabledOf actions0) s.nextTid).length) := by
  refine ⟨?_, ?_, ?_⟩
  · intro hni hmiss
    unfold runAction
    have : (a.inst == "internal") = false := by simpa using hni
    rw [this]
    simp only [Bool.false_eq_true, if_false, hmiss]
  · intro hni hrej
    unfold runAction
    have : (a.inst == "internal") = false := by simpa using hni
    rw [this]
    simp only [Bool.false_eq_true, if_false, hrej]
  · intro actions0 rel
    obtain ⟨h1, h2, _, _, _, _⟩ := runMultipleActions_spec s actions0 cid rel
    constructor
    · rw [h2]; simp
    · rw [h1]; simp

/-- Witness for C8 at a concrete input: a connection registry where the
action's connector is missing in one case and rejecting in the other,
with a sibling list of three actions that are all still dispatched or
scheduled. -/
theorem dispatch_error_isolation_witness :
    (runAction (initState [] []) ⟨"a1", "connX", DelayField.num 0, false⟩ "c1"
       = { (initState [] []) with
             dispatches := [DispatchEvent.droppedMissing ⟨"a1", "connX", DelayField.num 0, false⟩]
           , logs := [msgMissingInstance] }) ∧
    (runAction (initState [] [("connY", false)]) ⟨"a2", "connY", DelayField.num 0, false⟩ "c1"
       = { (initState [] [("connY", false)]) with
             dispatches := [DispatchEvent.connectorRun "connY" ⟨"a2", "connY", DelayField.num 0, false⟩]
           , logs := [msgActionError] }) ∧
    ((initState [] []).runMultipleActions
        [⟨"a1", "connX", DelayField.num 0, false⟩, ⟨"a2", "connX", DelayField.num 3, false⟩,
         ⟨"a3", "connX", DelayField.num 0, false⟩] "c1" false).dispatches.length = 2 := by
  refine ⟨?_, ?_, ?_⟩
  · exact (dispatch_error_isolation (initState [] []) ⟨"a1", "connX", DelayField.num 0, false⟩ "c1").1
      (by decide) (by decide)
  · exact (dispatch_error_isolation (initState [] [("connY", false)])
        ⟨"a2", "connY", DelayField.num 0, false⟩ "c1").2.1 (by decide) (by decide)
  · rw [((dispatch_error_isolation (initState [] [])
        ⟨"a1", "connX", DelayField.num 0, false⟩ "c1").2.2
        [⟨"a1", "connX", DelayField.num 0, false⟩, ⟨"a2", "connX", DelayField.num 3, false⟩,
         ⟨"a3", "connX", DelayField.num 0, false⟩] false).1]
    decide

/-! ### Effective-delay record lemmas -/

theorem effectiveDelaysList_length (rel : Bool) :
    ∀ (acts : List ActionInstance) (t0 : Int),
      (effectiveDelaysList rel acts t0).length = acts.length := by
  intro acts
  induction acts with
  | nil => intro t0; simp [effectiveDelaysList]
  | cons a rest ih => intro t0; simp [effectiveDelaysList, ih]

theorem effectiveDelaysList_keys (rel : Bool) :
    ∀ (acts : List ActionInstance) (t0 : Int),
      (effectiveDelaysList rel acts t0).map Prod.fst = acts.map (fun a => a.id) := by
  intro acts
  induction acts with
  | nil => intro t0; simp [effectiveDelaysList]
  | cons a rest ih => intro t0; simp [effectiveDelaysList, ih]

theorem effectiveDelaysList_get? (rel : Bool) :
    ∀ (acts : List ActionInstance) (t0 : Int) (i : Nat) (a : ActionInstance),
      acts.get? i = some a →
      (effectiveDelaysList rel acts t0).get? i
        = some (a.id,
            if rel then t0 + (((acts.take (i + 1)).map ActionInstance.coercedDelay).sum)
            else a.coercedDelay) := by
  intro acts
  induction acts with
  | nil => intro t0 i a h; simp at h
  | cons b rest ih =>
    intro t0 i a h
    cases i with
    | zero =>
      simp only [List.get?] at h
      cases h
      cases rel <;> simp [effectiveDelaysList]
    | succ j =>
      simp only [List.get?] at h
      have := ih (if rel then t0 + b.coercedDelay else b.coercedDelay) j a h
      cases rel with
      | false =>
        simpa [effectiveDelaysList] using this
      | true =>
        simp only [if_true] at this ⊢
        simp only [effectiveDelaysList, if_true, List.get?]
        rw [this]
        simp [List.take, List.sum_cons, add_assoc]

theorem recSet_not_mem {β : Type} (k : String) (v : β) :
    ∀ (l : List (String × β)), k ∉ l.map Prod.fst → recSet l k v = l ++ [(k, v)] := by
  intro l
  induction l with
  | nil => intro _; simp [recSet]
  | cons p rest ih =>
    intro h
    simp only [List.map_cons, List.mem_cons] at h
    push_neg at h
    have hne : (p.1 == k) = false := by
      simp [h.1.symm]
    cases p with
    | mk k' w =>
      simp only [recSet]
      simp only at hne
      rw [hne]
      simp [ih h.2]

theorem foldl_recSet_append :
    ∀ (l r : List (String × Int)),
      ((r.map Prod.fst) ++ (l.map Prod.fst)).Nodup →
      l.foldl (fun acc p => recSet acc p.1 p.2) r = r ++ l := by
  intro l
  induction l with
  | nil => intro r _; simp
  | cons p rest ih =>
    intro r h
    have hk : p.1 ∉ r.map Prod.fst := by
      intro hmem
      rcases List.nodup_append.mp h with ⟨_, _, hdisj⟩
      exact hdisj hmem (by simp)
    simp only [List.foldl_cons]
    rw [recSet_not_mem p.1 p.2 r hk]
    rw [ih (r ++ [(p.1, p.2)]) (by simpa [List.append_assoc] using h)]
    simp

theorem buildRecord_eq_self (l : List (String × Int)) (h : (l.map Prod.fst).Nodup) :
    buildRecord l = l := by
  unfold buildRecord
  simpa using foldl_recSet_append l [] (by simpa using h)

theorem recGet_of_mem_nodup {β : Type} (k : String) (v : β) :
    ∀ (l : List (String × β)), (l.map Prod.fst).Nodup → (k, v) ∈ l → recGet l k = some v := by
  intro l
  induction l with
  | nil => intro _ h; simp at h
  | cons p rest ih =>
    intro hnd hmem
    simp only [List.map_cons, List.nodup_cons] at hnd
    rcases List.mem_cons.mp hmem with heq | htl
    · cases heq
      simp [recGet]
    · have hne : (p.1 == k) = false := by
        have : k ∈ rest.map Prod.fst := by
          exact List.mem_map.mpr ⟨(k, v), htl, rfl⟩
        have : p.1 ≠ k := fun hpk => hnd.1 (hpk ▸ this)
        simp [this]
      cases p with
      | mk k' w =>
        simp only [recGet]
        simp only at hne
        rw [hne]
        exact ih hnd.2 htl

/-- For an action list whose ids are distinct, looking an action's id up
in the effective-delay record yields exactly the value computed at that
action's own position. -/
theorem delayTime_of_nodup (rel : Bool) (acts : List ActionInstance) (i : Nat)
    (a : ActionInstance) (hnd : (acts.map (fun x => x.id)).Nodup)
    (hget : acts.get? i = some a) :
    delayTime (effectiveDelaysFor acts rel) a
      = (if rel then (((acts.take (i + 1)).map ActionInstance.coercedDelay).sum)
         else a.coercedDelay) := by
  have hkeys : ((effectiveDelaysList rel acts 0).map Prod.fst).Nodup := by
    rw [effectiveDelaysList_keys]
    exact hnd
  have hrec : effectiveDelaysFor acts rel = effectiveDelaysList rel acts 0 := by
    unfold effectiveDelaysFor
    exact buildRecord_eq_self _ hkeys
  have hget2 := effectiveDelaysList_get? rel acts 0 i a hget
  have hmem : (a.id,
      if rel then 0 + (((acts.take (i + 1)).map ActionInstance.coercedDelay).sum)
      else a.coercedDelay) ∈ effectiveDelaysList rel acts 0 := by
    exact List.get?_mem hget2
  have hlook := recGet_of_mem_nodup a.id _ _ hkeys hmem
  unfold delayTime
  rw [hrec, hlook]
  cases rel <;> simp

/-! ### Claim C1 -/

/-- C1: in relative delay mode the effective delay assigned to each
enabled action (ids distinct) is the running cumulative sum of the
coerced delays of the enabled actions in original input order, disabled
actions having been removed before the accumulation; in particular,
running actions with delays 5, 0 and 10 (with a disabled 7-delay action
interleaved) schedules timers with effective delays 5, 5 and 15. -/
theorem relative_delays_cumulative :
    (∀ (actions0 : List ActionInstance) (i : Nat) (a : ActionInstance),
        ((enabledOf actions0).map (fun x => x.id)).Nodup →
        (enabledOf actions0).get? i = some a →
        delayTime (effectiveDelaysFor (enabledOf actions0) true) a
          = (((enabledOf actions0).take (i + 1)).map ActionInstance.coercedDelay).sum) ∧
    ((initState [("c1", true)] []).runMultipleActions
        [⟨"a1", "conn", DelayField.num 5, false⟩, ⟨"aSkip", "conn", DelayField.num 7, true⟩,
         ⟨"a2", "conn", DelayField.num 0, false⟩, ⟨"a3", "conn", DelayField.num 10, false⟩]
        "c1" true).timers.map (fun t => (t.action.id, t.delay))
      = [("a1", 5), ("a2", 5), ("a3", 15)] := by
  constructor
  · intro actions0 i a hnd hget
    have := delayTime_of_nodup true (enabledOf actions0) i a hnd hget
    simpa using this
  · decide

/-- Witness for C1 at a concrete input: the third enabled action of the
delays-[5, 0, 10] list gets effective delay 15, the cumulative sum. -/
theorem relative_delays_cumulative_witness :
    delayTime
        (effectiveDelaysFor
          (enabledOf [⟨"a1", "conn", DelayField.num 5, false⟩, ⟨"aSkip", "conn", DelayField.num 7, true⟩,
            ⟨"a2", "conn", DelayField.num 0, false⟩, ⟨"a3", "conn", DelayField.num 10, false⟩]) true)
        ⟨"a3", "conn", DelayField.num 10, false⟩
      = (((enabledOf [⟨"a1", "conn", DelayField.num 5, false⟩, ⟨"aSkip", "conn", DelayField.num 7, true⟩,
            ⟨"a2", "conn", DelayField.num 0, false⟩, ⟨"a3", "conn", DelayField.num 10, false⟩]).take 3).map
          ActionInstance.coercedDelay).sum ∧
    (((enabledOf [⟨"a1", "conn", DelayField.num 5, false⟩, ⟨"aSkip", "conn", DelayField.num 7, true⟩,
        ⟨"a2", "conn", DelayField.num 0, false⟩, ⟨"a3", "conn", DelayField.num 10, false⟩]).take 3).map
      ActionInstance.coercedDelay).sum = 15 :=
  ⟨relative_delays_cumulative.1
      [⟨"a1", "conn", DelayField.num 5, false⟩, ⟨"aSkip", "conn", DelayField.num 7, true⟩,
        ⟨"a2", "conn", DelayField.num 0, false⟩, ⟨"a3", "conn", DelayField.num 10, false⟩]
      2 ⟨"a3", "conn", DelayField.num 10, false⟩ (by decide) (by decide),
    by decide⟩

/-! ### Claim C10 -/

/-- C10: the effective-delay table is keyed by action id.  With distinct
ids every enabled action is dispatched or scheduled with the delay
computed for its own position (cumulative in relative mode, its own
coerced delay in absolute mode); with a duplicated id both occurrences
use the delay computed for the later occurrence, as the concrete
absolute-mode run with delays 5 and 7 under one id shows: both are
scheduled at delay 7. -/
theorem effective_delay_keyed_by_id :
    (∀ (actions0 : List ActionInstance) (rel : Bool) (i : Nat) (a : ActionInstance),
        ((enabledOf actions0).map (fun x => x.id)).Nodup →
        (enabledOf actions0).get? i = some a →
        delayTime (effectiveDelaysFor (enabledOf actions0) rel) a
          = (if rel then (((enabledOf actions0).take (i + 1)).map ActionInstance.coercedDelay).sum
             else a.coercedDelay)) ∧
    ((initState [("c1", true)] []).runMultipleActions
        [⟨"x", "conn", DelayField.num 5, false⟩, ⟨"x", "conn", DelayField.num 7, false⟩]
        "c1" false).timers.map (fun t => (t.action.id, t.action.delay, t.delay))
      = [("x", DelayField.num 5, 7), ("x", DelayField.num 7, 7)] := by
  constructor
  · intro actions0 rel i a hnd hget
    exact delayTime_of_nodup rel (enabledOf actions0) i a hnd hget
  · decide

/-- Witness for C10 at a concrete input: in absolute mode with distinct
ids, the first action's effective delay is its own coerced delay. -/
theorem effective_delay_keyed_by_id_witness :
    delayTime
        (effectiveDelaysFor
          (enabledOf [⟨"y1", "conn", DelayField.num 5, false⟩, ⟨"y2", "conn", DelayField.undef, false⟩]) false)
        ⟨"y1", "conn", DelayField.num 5, false⟩
      = (if false then
           (((enabledOf [⟨"y1", "conn", DelayField.num 5, false⟩, ⟨"y2", "conn", DelayField.undef, false⟩]).take
               (0 + 1)).map ActionInstance.coercedDelay).sum
         else ActionInstance.coercedDelay ⟨"y1", "conn", DelayField.num 5, false⟩) :=
  effective_delay_keyed_by_id.1
    [⟨"y1", "conn", DelayField.num 5, false⟩, ⟨"y2", "conn", DelayField.undef, false⟩]
    false 0 ⟨"y1", "conn", DelayField.num 5, false⟩ (by decide) (by decide)

/-! ### Claim C7 -/

/-- C7 counterexample: on an unknown control id, `pressControl` returns
false and has no side effect at all — in particular the `control_press`
trigger-system event does NOT fire (the emit sits inside the branch that
requires a resolved, press-capable control), contradicting the claim
that the raw event still fires. -/
theorem pressControl_unknown_no_trigger_event_cex :
    (ControllerState.pressControl ⟨[], [], [], [], []⟩ "nope" true none).2 = false ∧
    (ControllerState.pressControl ⟨[], [], [], [], []⟩ "nope" true none).1.triggerEvents = [] ∧
    (ControllerState.pressControl ⟨[], [], [], [], []⟩ "nope" true none).1
      = (⟨[], [], [], [], []⟩ : ControllerState) := by
  refine ⟨rfl, rfl, rfl⟩

/-- C7 amended: `pressControl` resolves the control first and emits the
`control_press` trigger-system event only when a press-capable control
was found, immediately before invoking the control's handler;
`rotateControl` never emits a trigger-system event; on an unknown id (or
a control lacking the capability) both return false with no side effect
and no trigger event. -/
theorem pressControl_rotateControl_spec (s : ControllerState) (cid : String)
    (pressed : Bool) (dev : Option String) :
    (s.controls.find? (fun c => c.id == cid) = none →
       s.pressControl cid pressed dev = (s, false) ∧
       s.rotateControl cid pressed dev = (s, false)) ∧
    (∀ ctl, s.controls.find? (fun c => c.id == cid) = some ctl →
       ctl.hasPressControl = true →
       s.pressControl cid pressed dev
         = ({ s with triggerEvents := s.triggerEvents ++ [TriggerEvent.control_press cid pressed dev]
                   , pressCalls := s.pressCalls ++ [(cid, pressed, dev)] }, true)) ∧
    (∀ ctl, s.controls.find? (fun c => c.id == cid) = some ctl →
       ctl.hasPressControl = false →
       s.pressControl cid pressed dev = (s, false)) ∧
    ((s.rotateControl cid pressed dev).1.triggerEvents = s.triggerEvents) := by
  refine ⟨?_, ?_, ?_, ?_⟩
  · intro hnone
    unfold ControllerState.pressControl ControllerState.rotateControl
    rw [hnone]
    exact ⟨rfl, rfl⟩
  · intro ctl hsome hcap
    unfold ControllerState.pressControl
    rw [hsome]
    simp [hcap]
  · intro ctl hsome hcap
    unfold ControllerState.pressControl
    rw [hsome]
    simp [hcap]
  · unfold ControllerState.rotateControl
    split
    · split <;> simp
    · simp

/-- Witness for the amended C7 at concrete inputs: a registry with one
press-capable control; pressing it emits the event and returns true,
pressing a registered but press-incapable control returns false, and a
rotate leaves the trigger-event log unchanged. -/
theorem pressControl_rotateControl_spec_witness :
    ((⟨[⟨"A", true, true, true⟩], [], [], [], []⟩ : ControllerState).pressControl "A" true none
       = ({ (⟨[⟨"A", true, true, true⟩], [], [], [], []⟩ : ControllerState) with
              triggerEvents := [TriggerEvent.control_press "A" true none]
            , pressCalls := [("A", true, none)] }, true)) ∧
    ((⟨[⟨"B", false, true, true⟩], [], [], [], []⟩ : ControllerState).pressControl "B" true none
       = ((⟨[⟨"B", false, true, true⟩], [], [], [], []⟩ : ControllerState), false)) ∧
    ((⟨[⟨"A", true, true, true⟩], [], [], [], []⟩ : ControllerState).pressControl "Z" true none
       = ((⟨[⟨"A", true, true, true⟩], [], [], [], []⟩ : ControllerState), false)) ∧
    (((⟨[⟨"A", true, true, true⟩], [], [], [], []⟩ : ControllerState).rotateControl "A" true none).1.triggerEvents
       = []) := by
  refine ⟨?_, ?_, ?_, ?_⟩
  · exact (pressControl_rotateControl_spec ⟨[⟨"A", true, true, true⟩], [], [], [], []⟩ "A" true none).2.1
      ⟨"A", true, true, true⟩ (by decide) (by decide)
  · exact (pressControl_rotateControl_spec ⟨[⟨"B", false, true, true⟩], [], [], [], []⟩ "B" true none).2.2.1
      ⟨"B", false, true, true⟩ (by decide) (by decide)
  · exact ((pressControl_rotateControl_spec ⟨[⟨"A", true, true, true⟩], [], [], [], []⟩ "Z" true none).1
      (by decide)).1
  · exact (pressControl_rotateControl_spec ⟨[⟨"A", true, true, true⟩], [], [], [], []⟩ "A" true none).2.2.2

/-! ### Claim C9 -/

theorem recGet_recSet_self {β : Type} (k : String) (v : β) :
    ∀ (g : List (String × β)), recGet (recSet g k v) k = some v := by
  intro g
  induction g with
  | nil => simp [recSet, recGet]
  | cons p rest ih =>
    cases p with
    | mk k' w =>
      by_cases h : k' = k
      · subst h
        simp [recSet, recGet]
      · have hb : (k' == k) = false := by simp [h]
        simp only [recSet, hb, Bool.false_eq_true, if_false, recGet]
        exact ih

theorem recGet_recSet_ne {β : Type} (k k' : String) (v : β) (hne : k' ≠ k) :
    ∀ (g : List (String × β)), recGet (recSet g k v) k' = recGet g k' := by
  intro g
  induction g with
  | nil =>
    have hb : (k == k') = false := by simp [Ne.symm hne]
    simp [recSet, recGet, hb]
  | cons p rest ih =>
    cases p with
    | mk k0 w =>
      by_cases h : k0 = k
      · subst h
        have hb : (k0 == k0) = true := by simp
        have hb2 : (k0 == k') = false := by simp [Ne.symm hne]
        simp [recSet, recGet, hb2]
      · have hb : (k0 == k) = false := by simp [h]
        simp only [recSet, hb, Bool.false_eq_true, if_false, recGet]
        by_cases h2 : k0 = k'
        · subst h2
          simp
        · have hb2 : (k0 == k') = false := by simp [h2]
          rw [hb2]
          simp only [Bool.false_eq_true, if_false]
          exact ih

theorem recSet_keys {β : Type} (k : String) (v : β) :
    ∀ (g : List (String × β)),
      (recSet g k v).map Prod.fst
        = if k ∈ g.map Prod.fst then g.map Prod.fst else g.map Prod.fst ++ [k] := by
  intro g
  induction g with
  | nil => simp [recSet]
  | cons p rest ih =>
    cases p with
    | mk k0 w =>
      by_cases h : k0 = k
      · subst h
        simp [recSet]
      · have hb : (k0 == k) = false := by simp [h]
        simp only [recSet, hb, Bool.false_eq_true, if_false, List.map_cons]
        rw [ih]
        by_cases hm : k ∈ rest.map Prod.fst
        · simp [hm, Ne.symm h]
        · simp only [hm, if_false]
          have : (k ∈ k0 :: rest.map Prod.fst) ↔ False := by
            simp [hm, Ne.symm h]
          simp [hm, Ne.symm h]

/-- The per-control record accumulated for `cid` by the grouping loop:
only `cid`'s own tuples contribute, in order, last value winning per
feedback id. -/
def ownGroup (cid : String) (items : List FeedbackItem) : List (String × FeedbackValue) :=
  (items.filter (fun i => i.controlId == cid)).foldl (fun r i => recSet r i.id i.value) []

theorem groupFeedbackGo_lookup :
    ∀ (items : List FeedbackItem) (g : List (String × List (String × FeedbackValue))) (cid : String),
      recGetD (groupFeedbackGo items g) cid []
        = (items.filter (fun i => i.controlId == cid)).foldl
            (fun r i => recSet r i.id i.value) (recGetD g cid []) := by
  intro items
  induction items with
  | nil => intro g cid; simp [groupFeedbackGo]
  | cons item rest ih =>
    intro g cid
    by_cases h : item.controlId = cid
    · have hb : (item.controlId == cid) = true := by simp [h]
      simp only [groupFeedbackGo, List.filter_cons, hb, if_true, List.foldl_cons]
      rw [ih]
      have h2 : recGetD (recSet g item.controlId
          (recSet (recGetD g item.controlId []) item.id item.value)) cid []
          = recSet (recGetD g cid []) item.id item.value := by
        subst h
        unfold recGetD
        rw [recGet_recSet_self]
      rw [h2]
    · have hb : (item.controlId == cid) = false := by simp [h]
      simp only [groupFeedbackGo, List.filter_cons, hb, Bool.false_eq_true, if_false]
      rw [ih]
      have h2 : recGetD (recSet g item.controlId
          (recSet (recGetD g item.controlId []) item.id item.value)) cid []
          = recGetD g cid [] := by
        unfold recGetD
        rw [recGet_recSet_ne item.controlId cid _ (fun hc => h hc.symm)]
      rw [h2]

theorem groupFeedbackGo_keys_nodup :
    ∀ (items : List FeedbackItem) (g : List (String × List (String × FeedbackValue))),
      (g.map Prod.fst).Nodup → ((groupFeedbackGo items g).map Prod.fst).Nodup := by
  intro items
  induction items with
  | nil => intro g h; simpa [groupFeedbackGo] using h
  | cons item rest ih =>
    intro g h
    simp only [groupFeedbackGo]
    apply ih
    rw [recSet_keys]
    by_cases hm : item.controlId ∈ g.map Prod.fst
    · simp [hm, h]
    · simp only [hm, if_false]
      refine List.Nodup.append h (List.nodup_singleton _) ?_
      intro x hx1 hx2
      simp only [List.mem_singleton] at hx2
      subst hx2
      exact hm hx1

theorem groupFeedbackGo_keys_mem :
    ∀ (items : List FeedbackItem) (g : List (String × List (String × FeedbackValue))) (cid : String),
      (cid ∈ (groupFeedbackGo items g).map Prod.fst)
        ↔ (cid ∈ g.map Prod.fst ∨ cid ∈ items.map (fun i => i.controlId)) := by
  intro items
  induction items with
  | nil => intro g cid; simp [groupFeedbackGo]
  | cons item rest ih =>
    intro g cid
    simp only [groupFeedbackGo]
    rw [ih]
    rw [recSet_keys]
    by_cases hm : item.controlId ∈ g.map Prod.fst
    · simp only [hm, if_true, List.map_cons, List.mem_cons]
      constructor
      · rintro (h | h)
        · exact Or.inl h
        · exact Or.inr (Or.inr h)
      · rintro (h | h | h)
        · exact Or.inl h
        · exact Or.inl (h ▸ hm)
        · exact Or.inr h
    · simp only [hm, if_false, List.mem_append, List.map_cons, List.mem_cons]
      constructor
      · rintro ((h | h) | h)
        · exact Or.inl h
        · simp at h
          exact Or.inr (Or.inl h)
        · exact Or.inr (Or.inr h)
      · rintro (h | h | h)
        · exact Or.inl (Or.inl h)
        · exact Or.inl (Or.inr (by simp [h]))
        · exact Or.inr h

/-- Whether the registry resolves `cid` to a control with a feedback
store (the guard on line 1052). -/
def ControllerState.hasFeedbacksControl (s : ControllerState) (cid : String) : Bool :=
  match s.controls.find? (fun c => c.id == cid) with
  | some ctl => ctl.hasFeedbacks
  | none => false

theorem updateFeedback_fold_spec (instanceId : String) :
    ∀ (vals : List (String × List (String × FeedbackValue))) (s : ControllerState),
      (vals.foldl
          (fun acc p =>
            match acc.controls.find? (fun c => c.id == p.1) with
            | some control =>
              if control.hasFeedbacks then
                { acc with feedbackDeliveries := acc.feedbackDeliveries ++ [(p.1, instanceId, p.2)] }
              else acc
            | none => acc)
          s).feedbackDeliveries
        = s.feedbackDeliveries
          ++ vals.filterMap
               (fun p => if s.hasFeedbacksControl p.1 then some (p.1, instanceId, p.2) else none) ∧
      (vals.foldl
          (fun acc p =>
            match acc.controls.find? (fun c => c.id == p.1) with
            | some control =>
              if control.hasFeedbacks then
                { acc with feedbackDeliveries := acc.feedbackDeliveries ++ [(p.1, instanceId, p.2)] }
              else acc
            | none => acc)
          s).controls = s.controls := by
  intro vals
  induction vals with
  | nil => intro s; simp
  | cons p rest ih =>
    intro s
    simp only [List.foldl_cons, List.filterMap_cons]
    unfold ControllerState.hasFeedbacksControl
    cases hf : s.controls.find? (fun c => c.id == p.1) with
    | none =>
      simp only [hf]
      obtain ⟨ha, hb⟩ := ih s
      rw [ha, hb]
      unfold ControllerState.hasFeedbacksControl
      exact ⟨rfl, rfl⟩
    | some ctl =>
      simp only [hf]
      by_cases hcap : ctl.hasFeedbacks = true
      · simp only [hcap, if_true]
        obtain ⟨ha, hb⟩ := ih { s with feedbackDeliveries := s.feedbackDeliveries ++ [(p.1, instanceId, p.2)] }
        rw [ha, hb]
        unfold ControllerState.hasFeedbacksControl
        simp
      · have hcf : ctl.hasFeedbacks = false := by simpa using hcap
        simp only [hcf, Bool.false_eq_true, if_false]
        obtain ⟨ha, hb⟩ := ih s
        rw [ha, hb]
        unfold ControllerState.hasFeedbacksControl
        exact ⟨rfl, rfl⟩

/-- C9: `updateFeedbackValues` groups the batch by control id with the
last value winning per feedback id within one control's group; every
group in the table is exactly the record accumulated from that control's
own tuples (so no value is ever delivered to a control that does not own
it), there is exactly one group per control occurring in the batch, and
each registered control with a feedback store receives exactly its own
group; on the concrete batch A-f1-true, B-f2-false, A-f3-false, control
A receives exactly f1-true and f3-false and control B exactly
f2-false. -/
theorem updateFeedbackValues_grouping :
    (∀ (items : List FeedbackItem) (p : String × List (String × FeedbackValue)),
        p ∈ groupFeedbackValues items → p.2 = ownGroup p.1 items) ∧
    (∀ (items : List FeedbackItem),
        ((groupFeedbackValues items).map Prod.fst).Nodup ∧
        ∀ cid, (cid ∈ (groupFeedbackValues items).map Prod.fst
                 ↔ cid ∈ items.map (fun i => i.controlId))) ∧
    (∀ (s : ControllerState) (instanceId : String) (items : List FeedbackItem),
        (s.updateFeedbackValues instanceId items).feedbackDeliveries
          = s.feedbackDeliveries
            ++ (groupFeedbackValues items).filterMap
                 (fun p => if s.hasFeedbacksControl p.1 then some (p.1, instanceId, p.2) else none)) ∧
    ((ControllerState.updateFeedbackValues
        ⟨[⟨"A", true, true, true⟩, ⟨"B", true, true, true⟩], [], [], [], []⟩ "connZ"
        [⟨"A", "f1", FeedbackValue.boolVal true⟩, ⟨"B", "f2", FeedbackValue.boolVal false⟩,
         ⟨"A", "f3", FeedbackValue.boolVal false⟩]).feedbackDeliveries
      = [("A", "connZ", [("f1", FeedbackValue.boolVal true), ("f3", FeedbackValue.boolVal false)]),
         ("B", "connZ", [("f2", FeedbackValue.boolVal false)])]) := by
  refine ⟨?_, ?_, ?_, ?_⟩
  · intro items p hp
    have hnd : ((groupFeedbackValues items).map Prod.fst).Nodup :=
      groupFeedbackGo_keys_nodup items [] (by simp)
    have hlook : recGet (groupFeedbackValues items) p.1 = some p.2 := by
      cases p with
      | mk k v => exact recGet_of_mem_nodup k v _ hnd hp
    have h3 := groupFeedbackGo_lookup items [] p.1
    unfold groupFeedbackValues at hlook
    unfold recGetD at h3
    rw [hlook] at h3
    simpa [ownGroup, recGetD, recGet] using h3
  · intro items
    constructor
    · exact groupFeedbackGo_keys_nodup items [] (by simp)
    · intro cid
      have := groupFeedbackGo_keys_mem items [] cid
      simpa [groupFeedbackValues] using this
  · intro s instanceId items
    exact (updateFeedback_fold_spec instanceId (groupFeedbackValues items) s).1
  · decide

/-! ### Control-registry toolkit -/

theorem setActionsRunning_id (c : ControlState) (b k : Bool) :
    (c.setActionsRunning b k).id = c.id := rfl

theorem setActionsRunning_cap (c : ControlState) (b k : Bool) :
    (c.setActionsRunning b k).hasSetActionsRunning = c.hasSetActionsRunning := rfl

theorem setActionsRunning_running (c : ControlState) (b k : Bool) :
    (c.setActionsRunning b k).running = b := rfl

/-- Resolvability-and-capability view of a raw registry list. -/
def capOf (l : List ControlState) (x : String) : Bool :=
  match l.find? (fun c => c.id == x) with
  | some ctl => ctl.hasSetActionsRunning
  | none => false

theorem capableControl_eq_capOf (s : RunnerState) (x : String) :
    s.capableControl x = capOf s.controls x := rfl

theorem capOf_map_update (cid : String) (b k : Bool) (x : String) :
    ∀ (l : List ControlState),
      capOf (l.map (fun c => if c.id == cid then c.setActionsRunning b k else c)) x
        = capOf l x := by
  intro l
  induction l with
  | nil => simp [capOf]
  | cons c rest ih =>
    have hid : (if c.id == cid then c.setActionsRunning b k else c).id = c.id := by
      by_cases h : c.id = cid <;> simp [h, setActionsRunning_id]
    have hcap : (if c.id == cid then c.setActionsRunning b k else c).hasSetActionsRunning
        = c.hasSetActionsRunning := by
      by_cases h : c.id = cid <;> simp [h, setActionsRunning_cap]
    by_cases hx : c.id = x
    · have hbx : (c.id == x) = true := by simp [hx]
      unfold capOf
      simp only [List.map_cons, List.find?_cons, hid, hbx, hcap]
    · have hbx : (c.id == x) = false := by simp [hx]
      unfold capOf
      simp only [List.map_cons, List.find?_cons, hid, hbx]
      exact ih

theorem capableControl_setCIR (s : RunnerState) (cid : String) (b k : Bool) (x : String) :
    (s.setControlIsRunning cid b k).capableControl x = s.capableControl x := by
  rw [capableControl_eq_capOf, capableControl_eq_capOf, setControlIsRunning_controls]
  by_cases hc : s.capableControl cid
  · simp only [hc, if_true]
    exact capOf_map_update cid b k x s.controls
  · simp [hc]

theorem setCIR_controls_ids (s : RunnerState) (cid : String) (b k : Bool) :
    (s.setControlIsRunning cid b k).controls.map (fun c => c.id)
      = s.controls.map (fun c => c.id) := by
  rw [setControlIsRunning_controls]
  by_cases hc : s.capableControl cid
  · simp only [hc, if_true, List.map_map]
    apply List.map_congr_left
    intro c _
    by_cases h : c.id = cid <;> simp [h, setActionsRunning_id]
  · simp [hc]

theorem eq_of_mem_nodup_ids {l : List ControlState}
    (hnd : (l.map (fun c => c.id)).Nodup) {a b : ControlState}
    (ha : a ∈ l) (hb : b ∈ l) (hid : a.id = b.id) : a = b :=
  List.inj_on_of_nodup_map hnd ha hb hid

/-- Frame of a map-update on the controls of other ids: controls whose
id differs from `cid` are untouched. -/
theorem filter_ne_map_update (cid : String) (b k : Bool) :
    ∀ (l : List ControlState),
      (l.map (fun c => if c.id == cid then c.setActionsRunning b k else c)).filter
          (fun c => c.id != cid)
        = l.filter (fun c => c.id != cid) := by
  intro l
  induction l with
  | nil => simp
  | cons c rest ih =>
    by_cases hc : c.id = cid
    · have hb1 : (c.id == cid) = true := by simp [hc]
      simp only [List.map_cons, hb1, if_true, List.filter_cons]
      have h2 : ((c.setActionsRunning b k).id != cid) = false := by
        simp [setActionsRunning_id, hc]
      have h3 : (c.id != cid) = false := by simp [hc]
      rw [h2, h3]
      simp only [Bool.false_eq_true, if_false]
      exact ih
    · have hb1 : (c.id == cid) = false := by simp [hc]
      simp only [List.map_cons, hb1, Bool.false_eq_true, if_false, List.filter_cons]
      have h3 : (c.id != cid) = true := by simp [hc]
      rw [h3]
      simp only [if_true]
      rw [ih]

/-! ### Claim C5 -/

/-- C5 counterexample: a reachable state (one registered capable
control, pressed, with zero pending timers) on which
`abortControlDelayed` is NOT free of effect: the unconditional
`#setControlIsRunning(controlId, false, skipUp)` call signals the
control, which resolves the in-progress press as released. -/
theorem abortControlDelayed_noop_cex :
    ((execOps (initState [("c2", true)] []) [Op.press "c2"]).timers.filter
        (fun t => t.controlId == "c2") = []) ∧
    ((execOps (initState [("c2", true)] []) [Op.press "c2"]).controls.map
        (fun c => c.pushed) = [true]) ∧
    (((execOps (initState [("c2", true)] []) [Op.press "c2"]).abortControlDelayed
        "c2" false).controls.map (fun c => c.pushed) = [false]) ∧
    ((execOps (initState [("c2", true)] []) [Op.press "c2"]).abortControlDelayed "c2" false
       ≠ execOps (initState [("c2", true)] []) [Op.press "c2"]) := by
  refine ⟨rfl, rfl, rfl, ?_⟩
  decide

/-- C5 amended: `abortControlDelayed(controlId, skipUp)` cancels exactly
the pending timers owned by `controlId`; every other control's pending
timers and registry state (hence running flag) are unchanged; and when
`controlId` owns zero pending timers the call cancels nothing and raises
no error, but it is not effect-free: it still invokes
`setActionsRunning(false, skipUp)` on the control (signalling the press
as released unless `skipUp`), i.e. the whole call equals the bare
`#setControlIsRunning(controlId, false, skipUp)` notification. -/
theorem abortControlDelayed_frame (s : RunnerState) (controlId : String) (skipUp : Bool) :
    (s.abortControlDelayed controlId skipUp).timers
        = s.timers.filter (fun t => t.controlId != controlId) ∧
    (s.abortControlDelayed controlId skipUp).controls.filter (fun c => c.id != controlId)
        = s.controls.filter (fun c => c.id != controlId) ∧
    (s.abortControlDelayed controlId skipUp).signals
        = s.signals ++ (if s.capableControl controlId then [(controlId, false)] else []) ∧
    (s.timers.filter (fun t => t.controlId == controlId) = [] →
       s.abortControlDelayed controlId skipUp = s.setControlIsRunning controlId false skipUp) := by
  refine ⟨?_, ?_, ?_, ?_⟩
  · unfold RunnerState.abortControlDelayed
    exact (setControlIsRunning_frame _ controlId false skipUp).1
  · unfold RunnerState.abortControlDelayed
    rw [setControlIsRunning_controls]
    by_cases hc : ({ s with timers := s.timers.filter (fun t => t.controlId != controlId) } :
        RunnerState).capableControl controlId
    · simp only [hc, if_true]
      exact filter_ne_map_update controlId false skipUp s.controls
    · simp [hc]
  · unfold RunnerState.abortControlDelayed
    rw [setControlIsRunning_signals]
    rfl
  · intro hnone
    unfold RunnerState.abortControlDelayed
    have hself : s.timers.filter (fun t => t.controlId != controlId) = s.timers := by
      rw [List.filter_eq_self]
      intro t ht
      have : ¬ ((fun t => t.controlId == controlId) t = true) :=
        (List.filter_eq_nil_iff.mp hnone) t ht
      simpa using this
    rw [hself]

/-- Witness for the amended C5 at a concrete input: aborting a control
that owns zero timers equals the bare not-running notification. -/
theorem abortControlDelayed_frame_witness :
    (initState [("c9", true)] []).abortControlDelayed "c9" false
      = (initState [("c9", true)] []).setControlIsRunning "c9" false false :=
  (abortControlDelayed_frame (initState [("c9", true)] []) "c9" false).2.2.2 (by decide)

/-! ### Claim C6 -/

theorem dedupFirst_mem : ∀ (l : List String) (x : String), x ∈ dedupFirst l ↔ x ∈ l := by
  intro l
  induction l with
  | nil => intro x; simp [dedupFirst]
  | cons a rest ih =>
    intro x
    simp only [dedupFirst, List.mem_cons, List.mem_filter]
    rw [show ∀ b, (x != a) = b ↔ _ from fun b => Iff.rfl]
    constructor
    · rintro (h | ⟨h1, _⟩)
      · exact Or.inl h
      · exact Or.inr ((ih x).mp h1)
    · rintro (h | h)
      · exact Or.inl h
      · by_cases hxa : x = a
        · exact Or.inl hxa
        · exact Or.inr ⟨(ih x).mpr h, by simp [hxa]⟩

theorem dedupFirst_nodup : ∀ (l : List String), (dedupFirst l).Nodup := by
  intro l
  induction l with
  | nil => simp [dedupFirst]
  | cons a rest ih =>
    simp only [dedupFirst, List.nodup_cons]
    constructor
    · intro hmem
      have := (List.mem_filter.mp hmem).2
      simp at this
    · exact List.Nodup.filter _ ih

/-- The `setActionsRunning(false, false)` update is idempotent. -/
theorem setActionsRunning_false_idem (c : ControlState) :
    (c.setActionsRunning false false).setActionsRunning false false
      = c.setActionsRunning false false := rfl

theorem foldCIR_false_spec :
    ∀ (ids : List String) (s : RunnerState),
      (ids.foldl (fun acc i => acc.setControlIsRunning i false false) s).timers = s.timers ∧
      (ids.foldl (fun acc i => acc.setControlIsRunning i false false) s).signals
          = s.signals ++ (ids.filter (fun i => s.capableControl i)).map (fun i => (i, false)) ∧
      (ids.foldl (fun acc i => acc.setControlIsRunning i false false) s).controls.map (fun c => c.id)
          = s.controls.map (fun c => c.id) := by
  intro ids
  induction ids with
  | nil => intro s; simp
  | cons i rest ih =>
    intro s
    simp only [List.foldl_cons, List.filter_cons]
    obtain ⟨h1, h2, h3⟩ := ih (s.setControlIsRunning i false false)
    have hcapcongr : rest.filter (fun j => (s.setControlIsRunning i false false).capableControl j)
        = rest.filter (fun j => s.capableControl j) := by
      apply List.filter_congr
      intro j _
      rw [capableControl_setCIR]
    refine ⟨?_, ?_, ?_⟩
    · rw [h1, (setControlIsRunning_frame s i false false).1]
    · rw [h2, hcapcongr, setControlIsRunning_signals]
      by_cases hc : s.capableControl i
      · simp [hc]
      · simp [hc]
    · rw [h3, setCIR_controls_ids]

theorem foldCIR_false_controls_mem :
    ∀ (ids : List String) (s : RunnerState) (c' : ControlState),
      c' ∈ (ids.foldl (fun acc i => acc.setControlIsRunning i false false) s).controls →
      ∃ c, c ∈ s.controls ∧ c'.id = c.id ∧ c'.hasSetActionsRunning = c.hasSetActionsRunning ∧
        (c' = c ∨ c' = c.setActionsRunning false false) := by
  intro ids
  induction ids with
  | nil =>
    intro s c' h
    exact ⟨c', h, rfl, rfl, Or.inl rfl⟩
  | cons i rest ih =>
    intro s c' h
    simp only [List.foldl_cons] at h
    obtain ⟨c1, hc1mem, hid1, hcap1, hrel1⟩ := ih (s.setControlIsRunning i false false) c' h
    rw [setControlIsRunning_controls] at hc1mem
    by_cases hc : s.capableControl i
    · rw [if_pos hc] at hc1mem
      obtain ⟨c0, hc0mem, hc0eq⟩ := List.mem_map.mp hc1mem
      by_cases h0 : c0.id = i
      · have : c1 = c0.setActionsRunning false false := by
          rw [← hc0eq]; simp [h0]
        refine ⟨c0, hc0mem, ?_, ?_, ?_⟩
        · rw [hid1, this, setActionsRunning_id]
        · rw [hcap1, this, setActionsRunning_cap]
        · rcases hrel1 with h | h
          · exact Or.inr (by rw [h, this])
          · exact Or.inr (by rw [h, this, setActionsRunning_false_idem])
      · have heq : c1 = c0 := by
          rw [← hc0eq]; simp [h0]
        exact ⟨c1, by rw [heq]; exact hc0mem, hid1, hcap1, hrel1⟩
    · rw [if_neg hc] at hc1mem
      exact ⟨c1, hc1mem, hid1, hcap1, hrel1⟩

theorem foldCIR_false_running :
    ∀ (ids : List String) (s : RunnerState),
      (s.controls.map (fun c => c.id)).Nodup →
      ∀ c' ∈ (ids.foldl (fun acc i => acc.setControlIsRunning i false false) s).controls,
        c'.hasSetActionsRunning = true → c'.id ∈ ids → c'.running = false := by
  intro ids
  induction ids with
  | nil =>
    intro s _ c' _ _ hmem
    simp at hmem
  | cons i rest ih =>
    intro s hids c' hc' hcap hmem
    simp only [List.foldl_cons] at hc'
    by_cases hr : c'.id ∈ rest
    · exact ih (s.setControlIsRunning i false false)
        (by rw [setCIR_controls_ids]; exact hids) c' hc' hcap hr
    · have hi : c'.id = i := by
        rcases List.mem_cons.mp hmem with h | h
        · exact h
        · exact absurd h hr
      obtain ⟨c1, hc1mem, hid1, hcap1, hrel1⟩ := foldCIR_false_controls_mem rest
        (s.setControlIsRunning i false false) c' hc'
      have hc1run : c1.running = false := by
        rw [setControlIsRunning_controls] at hc1mem
        by_cases hc : s.capableControl i
        · rw [if_pos hc] at hc1mem
          obtain ⟨c0, _, hc0eq⟩ := List.mem_map.mp hc1mem
          by_cases h0 : c0.id = i
          · rw [← hc0eq]
            simp [h0, setActionsRunning_running]
          · exfalso
            have : c1 = c0 := by rw [← hc0eq]; simp [h0]
            apply h0
            rw [← this, ← hid1, hi]
        · rw [if_neg hc] at hc1mem
          exfalso
          rw [capableControl_eq_capOf] at hc
          unfold capOf at hc
          cases hfind : s.controls.find? (fun c => c.id == i) with
          | none =>
            have := List.find?_eq_none.mp hfind c1 hc1mem
            apply this
            simp [← hid1, hi]
          | some ctl =>
            rw [hfind] at hc
            have hctlmem := List.mem_of_find?_eq_some hfind
            have hctlid : ctl.id = i := by
              have := List.find?_some hfind
              simpa using this
            have heq2 : ctl = c1 := eq_of_mem_nodup_ids hids hctlmem hc1mem
              (by rw [hctlid, ← hid1, hi])
            have hcf : ctl.hasSetActionsRunning = false := by
              simpa using hc
            rw [heq2, ← hcap1, hcap] at hcf
            simp at hcf
      rcases hrel1 with h | h
      · rw [h]; exact hc1run
      · rw [h]; exact setActionsRunning_running c1 false false

/-- C6: `abortAllDelayed` cancels every pending timer process-wide; the
distinct owning control ids are collected first-occurrence style (so
each appears exactly once, however many timers it owned), and each
affected, registered, capable control is signalled `running := false`
exactly once and ends with its running flag false. -/
theorem abortAllDelayed_spec (s : RunnerState)
    (hids : (s.controls.map (fun c => c.id)).Nodup) :
    (s.abortAllDelayed).timers = [] ∧
    (s.abortAllDelayed).signals
        = s.signals ++ ((dedupFirst (s.timers.map (fun t => t.controlId))).filter
            (fun i => s.capableControl i)).map (fun i => (i, false)) ∧
    (dedupFirst (s.timers.map (fun t => t.controlId))).Nodup ∧
    (∀ x, x ∈ dedupFirst (s.timers.map (fun t => t.controlId))
        ↔ x ∈ s.timers.map (fun t => t.controlId)) ∧
    (∀ c ∈ (s.abortAllDelayed).controls, c.hasSetActionsRunning = true →
        c.id ∈ s.timers.map (fun t => t.controlId) → c.running = false) := by
  unfold RunnerState.abortAllDelayed
  obtain ⟨h1, h2, _⟩ := foldCIR_false_spec (dedupFirst (s.timers.map (fun t => t.controlId)))
    { s with timers := [] }
  refine ⟨h1, ?_, dedupFirst_nodup _, fun x => dedupFirst_mem _ x, ?_⟩
  · rw [h2]
    rfl
  · intro c hc hcap hmem
    exact foldCIR_false_running (dedupFirst (s.timers.map (fun t => t.controlId)))
      { s with timers := [] } hids c hc hcap ((dedupFirst_mem _ c.id).mpr hmem)

/-- Witness for C6 at a concrete input: two timers owned by one control
and one by another; each control is signalled exactly once. -/
theorem abortAllDelayed_spec_witness :
    ((execOps (initState [("c1", true), ("c2", true)] [("conn", true)])
        [Op.runActs [⟨"a1", "conn", DelayField.num 4, false⟩, ⟨"a2", "conn", DelayField.num 9, false⟩] "c1" false,
         Op.runActs [⟨"b1", "conn", DelayField.num 6, false⟩] "c2" false]).abortAllDelayed).timers = [] ∧
    ((execOps (initState [("c1", true), ("c2", true)] [("conn", true)])
        [Op.runActs [⟨"a1", "conn", DelayField.num 4, false⟩, ⟨"a2", "conn", DelayField.num 9, false⟩] "c1" false,
         Op.runActs [⟨"b1", "conn", DelayField.num 6, false⟩] "c2" false]).abortAllDelayed).signals
      = [("c1", true), ("c2", true), ("c1", false), ("c2", false)] := by
  have h := abortAllDelayed_spec
    (execOps (initState [("c1", true), ("c2", true)] [("conn", true)])
      [Op.runActs [⟨"a1", "conn", DelayField.num 4, false⟩, ⟨"a2", "conn", DelayField.num 9, false⟩] "c1" false,
       Op.runActs [⟨"b1", "conn", DelayField.num 6, false⟩] "c2" false]) (by decide)
  refine ⟨h.1, ?_⟩
  rw [h.2.1]
  decide

/-! ### Claim C3 -/

theorem timers_decomp (t : PendingTimer) :
    ∀ (l : List PendingTimer), (l.map (fun x => x.tid)).Nodup → t ∈ l →
      ∃ l1 l2, l = l1 ++ t :: l2 ∧ l.filter (fun x => x.tid != t.tid) = l1 ++ l2 := by
  intro l
  induction l with
  | nil => intro _ h; simp at h
  | cons c rest ih =>
    intro hnd hmem
    simp only [List.map_cons, List.nodup_cons] at hnd
    rcases List.mem_cons.mp hmem with heq | htl
    · subst heq
      refine ⟨[], rest, by simp, ?_⟩
      have hres : rest.filter (fun x => x.tid != t.tid) = rest := by
        rw [List.filter_eq_self]
        intro x hx
        have : x.tid ≠ t.tid := by
          intro hxe
          exact hnd.1 (hxe ▸ List.mem_map.mpr ⟨x, hx, rfl⟩)
        simpa using this
      have hhead : (t.tid != t.tid) = false := by simp
      simp only [List.filter_cons, hhead, Bool.false_eq_true, if_false, hres, List.nil_append]
    · have hcne : c.tid ≠ t.tid := by
        intro hce
        exact hnd.1 (hce ▸ List.mem_map.mpr ⟨t, htl, rfl⟩)
      obtain ⟨l1, l2, hsplit, hfilt⟩ := ih hnd.2 htl
      refine ⟨c :: l1, l2, by rw [hsplit]; simp, ?_⟩
      have hhead : (c.tid != t.tid) = true := by simpa using hcne
      simp only [List.filter_cons, hhead, if_true, hfilt, List.cons_append]

theorem find?_tid_eq (t : PendingTimer) :
    ∀ (l : List PendingTimer), (l.map (fun x => x.tid)).Nodup → t ∈ l →
      l.find? (fun x => x.tid == t.tid) = some t := by
  intro l
  induction l with
  | nil => intro _ h; simp at h
  | cons c rest ih =>
    intro hnd hmem
    simp only [List.map_cons, List.nodup_cons] at hnd
    rcases List.mem_cons.mp hmem with heq | htl
    · subst heq
      simp [List.find?_cons]
    · have hcne : (c.tid == t.tid) = false := by
        have : c.tid ≠ t.tid := by
          intro hce
          exact hnd.1 (hce ▸ List.mem_map.mpr ⟨t, htl, rfl⟩)
        simpa using this
      simp only [List.find?_cons, hcne]
      exact ih hnd.2 htl

theorem fireTimer_spec (s : RunnerState) (t : PendingTimer) :
    (s.fireTimer t).dispatches = s.dispatches ++ [dispatchEventFor s.connectors t.action] ∧
    (s.fireTimer t).timers = s.timers.filter (fun x => x.tid != t.tid) ∧
    (s.fireTimer t).connectors = s.connectors ∧
    (s.fireTimer t).nextTid = s.nextTid ∧
    ((s.timers.filter (fun x => x.tid != t.tid)).any (fun x => x.controlId == t.controlId) = true →
       (s.fireTimer t).signals = s.signals ∧ (s.fireTimer t).controls = s.controls) ∧
    ((s.timers.filter (fun x => x.tid != t.tid)).any (fun x => x.controlId == t.controlId) = false →
       (s.fireTimer t).signals
           = s.signals ++ (if s.capableControl t.controlId then [(t.controlId, false)] else []) ∧
       (s.fireTimer t).controls
           = (if s.capableControl t.controlId then
                s.controls.map (fun c => if c.id == t.controlId then c.setActionsRunning false false else c)
              else s.controls)) := by
  obtain ⟨g1, g2, g3, g4, g5, g6⟩ := runAction_frame s t.action t.controlId
  have hfire : s.fireTimer t
      = (if (((runAction s t.action t.controlId).timers.filter (fun t2 => t2.tid != t.tid)).any
              (fun t2 => t2.controlId == t.controlId)) = true
         then { runAction s t.action t.controlId with
                  timers := (runAction s t.action t.controlId).timers.filter (fun t2 => t2.tid != t.tid) }
         else ({ runAction s t.action t.controlId with
                  timers := (runAction s t.action t.controlId).timers.filter (fun t2 => t2.tid != t.tid) } :
                RunnerState).setControlIsRunning t.controlId false false) := rfl
  rw [hfire, g1]
  have hA : ({ runAction s t.action t.controlId with
      timers := s.timers.filter (fun t2 => t2.tid != t.tid) } : RunnerState).timers
      = s.timers.filter (fun t2 => t2.tid != t.tid) := rfl
  have hB : ({ runAction s t.action t.controlId with
      timers := s.timers.filter (fun t2 => t2.tid != t.tid) } : RunnerState).signals = s.signals := g5
  have hC : ({ runAction s t.action t.controlId with
      timers := s.timers.filter (fun t2 => t2.tid != t.tid) } : RunnerState).controls = s.controls := g3
  have hD : ({ runAction s t.action t.controlId with
      timers := s.timers.filter (fun t2 => t2.tid != t.tid) } : RunnerState).connectors = s.connectors := g4
  have hE : ({ runAction s t.action t.controlId with
      timers := s.timers.filter (fun t2 => t2.tid != t.tid) } : RunnerState).nextTid = s.nextTid := g2
  have hF : ({ runAction s t.action t.controlId with
      timers := s.timers.filter (fun t2 => t2.tid != t.tid) } : RunnerState).dispatches
      = s.dispatches ++ [dispatchEventFor s.connectors t.action] := g6
  have hcapx : ∀ x, ({ runAction s t.action t.controlId with
      timers := s.timers.filter (fun t2 => t2.tid != t.tid) } : RunnerState).capableControl x
      = s.capableControl x := by
    intro x
    rw [capableControl_eq_capOf, capableControl_eq_capOf]
    exact congrArg (fun l => capOf l x) hC
  cases hany : (s.timers.filter (fun x => x.tid != t.tid)).any (fun x => x.controlId == t.controlId) with
  | true =>
    rw [if_pos (show (true : Bool) = true from rfl)]
    exact ⟨hF, hA, hD, hE, fun _ => ⟨hB, hC⟩, fun hcontra => absurd hcontra (by simp)⟩
  | false =>
    rw [if_neg (show ¬ ((false : Bool) = true) by simp)]
    obtain ⟨f1, f2, f3, f4, f5⟩ := setControlIsRunning_frame
      ({ runAction s t.action t.controlId with
          timers := s.timers.filter (fun t2 => t2.tid != t.tid) } : RunnerState) t.controlId false false
    have hsig := setControlIsRunning_signals
      ({ runAction s t.action t.controlId with
          timers := s.timers.filter (fun t2 => t2.tid != t.tid) } : RunnerState) t.controlId false false
    have hctl := setControlIsRunning_controls
      ({ runAction s t.action t.controlId with
          timers := s.timers.filter (fun t2 => t2.tid != t.tid) } : RunnerState) t.controlId false false
    rw [hB, hcapx] at hsig
    rw [hC, hcapx] at hctl
    refine ⟨?_, ?_, ?_, ?_, fun hcontra => absurd hcontra (by simp), fun _ => ⟨hsig, hctl⟩⟩
    · rw [f4, hF]
    · rw [f1, hA]
    · rw [f3, hD]
    · rw [f2, hE]

/-- Firing, one at a time and in any order, exactly the pending timers a
control owns appends the `running := false` signal exactly once — at the
last of those fires, and not before. -/
theorem fireSeq_exactly_once :
    ∀ (tids : List Nat) (s : RunnerState) (cid : String),
      s.capableControl cid = true →
      (s.timers.map (fun x => x.tid)).Nodup →
      tids.Perm ((s.timers.filter (fun x => x.controlId == cid)).map (fun x => x.tid)) →
      tids ≠ [] →
      (execOps s (tids.map Op.fire)).signals = s.signals ++ [(cid, false)] ∧
      (∀ k, k < tids.length → (execOps s ((tids.take k).map Op.fire)).signals = s.signals) := by
  intro tids
  induction tids with
  | nil => intro s cid _ _ _ hne; exact absurd rfl hne
  | cons tid0 rest ih =>
    intro s cid hcap hnd hperm _
    have htid0mem : tid0 ∈ (s.timers.filter (fun x => x.controlId == cid)).map (fun x => x.tid) :=
      hperm.mem_iff.mp (by simp)
    obtain ⟨t, htmemf, httid⟩ := List.mem_map.mp htid0mem
    have htmem : t ∈ s.timers := (List.mem_filter.mp htmemf).1
    have htcid : t.controlId = cid := by
      have := (List.mem_filter.mp htmemf).2
      simpa using this
    have hfind : s.timers.find? (fun x => x.tid == tid0) = some t := by
      rw [← httid]
      exact find?_tid_eq t s.timers hnd htmem
    have hstep : stepOp s (Op.fire tid0) = s.fireTimer t := by
      simp only [stepOp, hfind]
    obtain ⟨l1, l2, hsplit, hfilt⟩ := timers_decomp t s.timers hnd htmem
    have howned : s.timers.filter (fun x => x.controlId == cid)
        = l1.filter (fun x => x.controlId == cid) ++ t :: l2.filter (fun x => x.controlId == cid) := by
      rw [hsplit, List.filter_append, List.filter_cons]
      have : (t.controlId == cid) = true := by simp [htcid]
      rw [this]
      simp
    have hownedAfter : (l1 ++ l2).filter (fun x => x.controlId == cid)
        = l1.filter (fun x => x.controlId == cid) ++ l2.filter (fun x => x.controlId == cid) :=
      List.filter_append _ _
    have hpermrest : rest.Perm (((l1 ++ l2).filter (fun x => x.controlId == cid)).map (fun x => x.tid)) := by
      have h1 : (tid0 :: rest).Perm
          ((l1.filter (fun x => x.controlId == cid) ++ t :: l2.filter (fun x => x.controlId == cid)).map
            (fun x => x.tid)) := by
        rw [← howned]; exact hperm
      have h2 : ((l1.filter (fun x => x.controlId == cid) ++ t :: l2.filter (fun x => x.controlId == cid)).map
            (fun x => x.tid)).Perm
          (t.tid :: ((l1.filter (fun x => x.controlId == cid) ++ l2.filter (fun x => x.controlId == cid)).map
            (fun x => x.tid))) := by
        simp only [List.map_append, List.map_cons]
        exact List.perm_middle
      have h3 := h1.trans h2
      rw [httid] at h3
      have h4 := (List.perm_cons tid0).mp h3
      rw [hownedAfter]
      simpa using h4
    obtain ⟨q1, q2, q3, q4, q5, q6⟩ := fireTimer_spec s t
    have hanyiff : ∀ b : Bool,
        ((s.timers.filter (fun x => x.tid != t.tid)).any (fun x => x.controlId == t.controlId)) = b
          → ((l1 ++ l2).any (fun x => x.controlId == cid)) = b := by
      intro b hb
      rw [hfilt, htcid] at hb
      exact hb
    by_cases hrestnil : rest = []
    · subst hrestnil
      have hempty : (l1 ++ l2).filter (fun x => x.controlId == cid) = [] := by
        have hlen := hpermrest.length_eq
        simp only [List.length_nil, List.length_map] at hlen
        exact List.length_eq_zero.mp hlen.symm
      have hanyf : ((s.timers.filter (fun x => x.tid != t.tid)).any
          (fun x => x.controlId == t.controlId)) = false := by
        rw [hfilt, htcid, List.any_eq_false]
        intro x hx
        have := List.filter_eq_nil_iff.mp hempty x hx
        simpa using this
      obtain ⟨hsig, _⟩ := q6 hanyf
      constructor
      · simp only [List.map_cons, List.map_nil, execOps, List.foldl_cons, List.foldl_nil, hstep]
        rw [hsig, htcid, if_pos hcap]
      · intro k hk
        have hk0 : k = 0 := by
          simpa using hk
        subst hk0
        simp [execOps]
    · have hnonempty : (l1 ++ l2).filter (fun x => x.controlId == cid) ≠ [] := by
        intro hcontra
        have hlen := hpermrest.length_eq
        rw [hcontra] at hlen
        simp only [List.map_nil, List.length_nil, List.length_eq_zero] at hlen
        exact hrestnil hlen
      have hanyt : ((s.timers.filter (fun x => x.tid != t.tid)).any
          (fun x => x.controlId == t.controlId)) = true := by
        rw [hfilt, htcid, List.any_eq_true]
        obtain ⟨x, hx⟩ := List.exists_mem_of_ne_nil _ hnonempty
        exact ⟨x, (List.mem_filter.mp hx).1, (List.mem_filter.mp hx).2⟩
      obtain ⟨hsig, hctls⟩ := q5 hanyt
      have hcap2 : (s.fireTimer t).capableControl cid = true := by
        rw [capableControl_eq_capOf]
        rw [congrArg (fun l => capOf l cid) hctls]
        rw [← capableControl_eq_capOf]
        exact hcap
      have hnd2 : ((s.fireTimer t).timers.map (fun x => x.tid)).Nodup := by
        rw [q2]
        exact List.Nodup.sublist (List.Sublist.map _ (List.filter_sublist _)) hnd
      have hperm2 : rest.Perm (((s.fireTimer t).timers.filter
          (fun x => x.controlId == cid)).map (fun x => x.tid)) := by
        rw [q2, hfilt]
        exact hpermrest
      obtain ⟨ihmain, ihtake⟩ := ih (s.fireTimer t) cid hcap2 hnd2 hperm2 hrestnil
      constructor
      · simp only [List.map_cons, execOps, List.foldl_cons, hstep]
        have h5 : (execOps (s.fireTimer t) (rest.map Op.fire)).signals
            = (s.fireTimer t).signals ++ [(cid, false)] := ihmain
        rw [show (execOps (s.fireTimer t) (rest.map Op.fire))
            = List.foldl stepOp (s.fireTimer t) (rest.map Op.fire) from rfl] at h5
        rw [h5, hsig]
      · intro k hk
        cases k with
        | zero => simp [execOps]
        | succ j =>
          have hjlt : j < rest.length := by
            simp only [List.length_cons] at hk
            omega
          simp only [List.take, List.map_cons, execOps, List.foldl_cons, hstep]
          have h5 := ihtake j hjlt
          rw [show (execOps (s.fireTimer t) ((rest.take j).map Op.fire))
              = List.foldl stepOp (s.fireTimer t) ((rest.take j).map Op.fire) from rfl] at h5
          rw [h5, hsig]

/-- C3: whenever `runMultipleActions` schedules at least one action with
positive effective delay, it signals the (registered, capable) owning
control `running := true` before returning and the control's flag reads
true; each timer, when it fires, dispatches its single action, removes
itself from the pending set, and signals `running := false` only when no
other pending timer for that control remains; and over any
order of firing exactly the control's pending timers, the
`running := false` signal is appended exactly once — after the last of
those fires, and not after any earlier one. -/
theorem delayed_actions_running_lifecycle :
    (∀ (s : RunnerState) (actions0 : List ActionInstance) (cid : String) (rel : Bool),
        (enabledOf actions0).any
            (fun a => decide (0 < delayTime (effectiveDelaysFor (enabledOf actions0) rel) a)) = true →
        s.capableControl cid = true →
        (s.runMultipleActions actions0 cid rel).signals = s.signals ++ [(cid, true)] ∧
        (∀ c ∈ (s.runMultipleActions actions0 cid rel).controls,
          c.id = cid → c.running = true)) ∧
    (∀ (s : RunnerState) (t : PendingTimer), t ∈ s.timers →
        (s.fireTimer t).dispatches = s.dispatches ++ [dispatchEventFor s.connectors t.action] ∧
        (s.fireTimer t).timers = s.timers.filter (fun x => x.tid != t.tid) ∧
        (((s.timers.filter (fun x => x.tid != t.tid)).any (fun x => x.controlId == t.controlId) = true →
            (s.fireTimer t).signals = s.signals) ∧
         ((s.timers.filter (fun x => x.tid != t.tid)).any (fun x => x.controlId == t.controlId) = false →
            s.capableControl t.controlId = true →
            (s.fireTimer t).signals = s.signals ++ [(t.controlId, false)]))) ∧
    (∀ (tids : List Nat) (s : RunnerState) (cid : String),
        s.capableControl cid = true →
        (s.timers.map (fun x => x.tid)).Nodup →
        tids.Perm ((s.timers.filter (fun x => x.controlId == cid)).map (fun x => x.tid)) →
        tids ≠ [] →
        (execOps s (tids.map Op.fire)).signals = s.signals ++ [(cid, false)] ∧
        (∀ k, k < tids.length → (execOps s ((tids.take k).map Op.fire)).signals = s.signals)) := by
  refine ⟨?_, ?_, fireSeq_exactly_once⟩
  · intro s actions0 cid rel hany hcap
    obtain ⟨_, _, _, _, h5, h6⟩ := runMultipleActions_spec s actions0 cid rel
    have hcond : ((enabledOf actions0).any
        (fun a => decide (0 < delayTime (effectiveDelaysFor (enabledOf actions0) rel) a))
          && s.capableControl cid) = true := by
      rw [hany, hcap]
      rfl
    rw [hcond] at h5 h6
    simp only [if_true] at h5 h6
    refine ⟨h5, ?_⟩
    intro c hc hcid
    rw [h6] at hc
    obtain ⟨c0, _, hc0eq⟩ := List.mem_map.mp hc
    by_cases h0 : c0.id = cid
    · rw [← hc0eq]
      simp [h0, setActionsRunning_running]
    · exfalso
      apply h0
      have hcc0 : c = c0 := by rw [← hc0eq]; simp [h0]
      rw [← hcc0]
      exact hcid
  · intro s t _
    obtain ⟨q1, q2, _, _, q5, q6⟩ := fireTimer_spec s t
    refine ⟨q1, q2, fun h => (q5 h).1, fun h hcap => ?_⟩
    rw [(q6 h).1, if_pos hcap]

/-- Witness for C3 at concrete inputs: one run scheduling a 5 ms and a
7 ms action for control c1 signals running once; firing the first timer
leaves the signal log alone; firing both timers appends exactly one
`running := false`. -/
theorem delayed_actions_running_lifecycle_witness :
    (((initState [("c1", true)] [("conn", true)]).runMultipleActions
        [⟨"d1", "conn", DelayField.num 5, false⟩] "c1" false).signals
      = (initState [("c1", true)] [("conn", true)]).signals ++ [("c1", true)]) ∧
    (((execOps (initState [("c1", true)] [("conn", true)])
        [Op.runActs [⟨"d1", "conn", DelayField.num 5, false⟩,
          ⟨"d2", "conn", DelayField.num 7, false⟩] "c1" false]).fireTimer
        ⟨0, "c1", ⟨"d1", "conn", DelayField.num 5, false⟩, 5⟩).signals
      = (execOps (initState [("c1", true)] [("conn", true)])
        [Op.runActs [⟨"d1", "conn", DelayField.num 5, false⟩,
          ⟨"d2", "conn", DelayField.num 7, false⟩] "c1" false]).signals) ∧
    ((execOps (execOps (initState [("c1", true)] [("conn", true)])
        [Op.runActs [⟨"d1", "conn", DelayField.num 5, false⟩,
          ⟨"d2", "conn", DelayField.num 7, false⟩] "c1" false]) ([0, 1].map Op.fire)).signals
      = (execOps (initState [("c1", true)] [("conn", true)])
        [Op.runActs [⟨"d1", "conn", DelayField.num 5, false⟩,
          ⟨"d2", "conn", DelayField.num 7, false⟩] "c1" false]).signals ++ [("c1", false)]) := by
  refine ⟨?_, ?_, ?_⟩
  · exact (delayed_actions_running_lifecycle.1 (initState [("c1", true)] [("conn", true)])
      [⟨"d1", "conn", DelayField.num 5, false⟩] "c1" false (by decide) (by decide)).1
  · exact (delayed_actions_running_lifecycle.2.1 (execOps (initState [("c1", true)] [("conn", true)])
      [Op.runActs [⟨"d1", "conn", DelayField.num 5, false⟩,
        ⟨"d2", "conn", DelayField.num 7, false⟩] "c1" false])
      ⟨0, "c1", ⟨"d1", "conn", DelayField.num 5, false⟩, 5⟩ (by decide)).2.2.1 (by decide)
  · exact (delayed_actions_running_lifecycle.2.2 [0, 1] (execOps (initState [("c1", true)] [("conn", true)])
      [Op.runActs [⟨"d1", "conn", DelayField.num 5, false⟩,
        ⟨"d2", "conn", DelayField.num 7, false⟩] "c1" false]) "c1"
      (by decide) (by decide) (by decide) (by decide)).1

/-! ### Claim C4 -/

/-- Timer handles are distinct and below the fresh-handle counter. -/
def TidInv (s : RunnerState) : Prop :=
  (s.timers.map (fun t => t.tid)).Nodup ∧ ∀ t ∈ s.timers, t.tid < s.nextTid

/-- The registry is keyed by id. -/
def IdsInv (s : RunnerState) : Prop :=
  (s.controls.map (fun c => c.id)).Nodup

/-- The claimed invariant: a capable registered control's running flag
is true exactly when the scheduler holds a pending timer it owns. -/
def RunInv (s : RunnerState) : Prop :=
  ∀ c ∈ s.controls, c.hasSetActionsRunning = true →
    (c.running = true ↔ s.timers.any (fun t => t.controlId == c.id) = true)

/-- Inductive invariant of the scheduler. -/
def SchedInv (s : RunnerState) : Prop := TidInv s ∧ IdsInv s ∧ RunInv s

theorem capOf_false_no_capable (l : List ControlState) (x : String)
    (hids : (l.map (fun c => c.id)).Nodup) (hcap : capOf l x = false) :
    ∀ c ∈ l, c.id = x → c.hasSetActionsRunning = false := by
  intro c hc hcx
  unfold capOf at hcap
  cases hfind : l.find? (fun c2 => c2.id == x) with
  | none =>
    exact absurd (by simp [hcx]) (List.find?_eq_none.mp hfind c hc)
  | some ctl =>
    rw [hfind] at hcap
    have hctlmem := List.mem_of_find?_eq_some hfind
    have hctlid : ctl.id = x := by simpa using List.find?_some hfind
    have hceq : c = ctl := eq_of_mem_nodup_ids hids hc hctlmem (by rw [hcx, hctlid])
    rw [hceq]
    simpa using hcap

theorem any_filter_ne_controlId (cid x : String) (hx : x ≠ cid) :
    ∀ (l : List PendingTimer),
      (l.filter (fun t => t.controlId != cid)).any (fun t => t.controlId == x)
        = l.any (fun t => t.controlId == x) := by
  intro l
  induction l with
  | nil => simp
  | cons t rest ih =>
    by_cases hc : t.controlId = cid
    · have hkeep : (t.controlId != cid) = false := by simp [hc]
      have hmatch : (t.controlId == x) = false := by simp [hc, Ne.symm hx]
      simp only [List.filter_cons, hkeep, Bool.false_eq_true, if_false, List.any_cons, hmatch,
        Bool.false_or]
      exact ih
    · have hkeep : (t.controlId != cid) = true := by simp [hc]
      simp only [List.filter_cons, hkeep, if_true, List.any_cons]
      rw [ih]

theorem any_filter_self_false (cid : String) :
    ∀ (l : List PendingTimer),
      (l.filter (fun t => t.controlId != cid)).any (fun t => t.controlId == cid) = false := by
  intro l
  rw [List.any_eq_false]
  intro x hx
  have := (List.mem_filter.mp hx).2
  simpa using this

theorem any_remove_ne (l1 l2 : List PendingTimer) (t : PendingTimer) (x : String)
    (hx : (t.controlId == x) = false) :
    (l1 ++ t :: l2).any (fun u => u.controlId == x) = (l1 ++ l2).any (fun u => u.controlId == x) := by
  simp [List.any_append, List.any_cons, hx]

theorem map_update_ids (cid : String) (f : ControlState → ControlState)
    (hf : ∀ c, (f c).id = c.id) (l : List ControlState) :
    (l.map (fun c => if c.id == cid then f c else c)).map (fun c => c.id)
      = l.map (fun c => c.id) := by
  rw [List.map_map]
  apply List.map_congr_left
  intro c _
  by_cases h : c.id = cid <;> simp [h, hf]

theorem scheduledTimers_controlId (eff : List (String × Int)) (cid : String) :
    ∀ (acts : List ActionInstance) (t0 : Nat) (t : PendingTimer),
      t ∈ scheduledTimers eff cid acts t0 → t.controlId = cid := by
  intro acts
  induction acts with
  | nil => intro t0 t h; simp [scheduledTimers] at h
  | cons a rest ih =>
    intro t0 t h
    by_cases hd : delayTime eff a > 0
    · simp only [scheduledTimers, hd, if_pos] at h
      rcases List.mem_cons.mp h with heq | htl
      · rw [heq]
      · exact ih (t0 + 1) t htl
    · simp only [scheduledTimers, hd, if_neg, if_false] at h
      exact ih t0 t h

theorem scheduledTimers_tids (eff : List (String × Int)) (cid : String) :
    ∀ (acts : List ActionInstance) (t0 : Nat),
      (scheduledTimers eff cid acts t0).map (fun t => t.tid)
        = List.range' t0 (scheduledTimers eff cid acts t0).length := by
  intro acts
  induction acts with
  | nil => intro t0; simp [scheduledTimers]
  | cons a rest ih =>
    intro t0
    by_cases hd : delayTime eff a > 0
    · simp only [scheduledTimers, hd, if_pos, List.map_cons, List.length_cons]
      rw [ih (t0 + 1)]
      rfl
    · simp only [scheduledTimers, hd, if_neg, if_false]
      exact ih t0

theorem scheduledTimers_eq_nil_iff (eff : List (String × Int)) (cid : String) :
    ∀ (acts : List ActionInstance) (t0 : Nat),
      scheduledTimers eff cid acts t0 = []
        ↔ acts.any (fun a => decide (0 < delayTime eff a)) = false := by
  intro acts
  induction acts with
  | nil => intro t0; simp [scheduledTimers]
  | cons a rest ih =>
    intro t0
    by_cases hd : delayTime eff a > 0
    · simp only [scheduledTimers, hd, if_pos, List.any_cons]
      constructor
      · intro h; exact absurd h (by simp)
      · intro h
        rw [Bool.or_eq_false_iff] at h
        have := h.1
        simp [hd] at this
    · simp only [scheduledTimers, hd, if_neg, if_false, List.any_cons]
      rw [ih t0]
      constructor
      · intro h
        rw [Bool.or_eq_false_iff]
        exact ⟨by simp [hd], h⟩
      · intro h
        rw [Bool.or_eq_false_iff] at h
        exact h.2

theorem schedInv_press (s : RunnerState) (cid : String) (h : SchedInv s) :
    SchedInv (s.pressModel cid) := by
  obtain ⟨htid, hids, hrun⟩ := h
  unfold RunnerState.pressModel
  refine ⟨htid, ?_, ?_⟩
  · unfold IdsInv at hids ⊢
    simp only
    rw [map_update_ids cid (fun c => { c with pushed := true }) (fun c => rfl)]
    exact hids
  · intro c' hc' hcap'
    simp only at hc'
    obtain ⟨c0, hc0, hc0eq⟩ := List.mem_map.mp hc'
    have hsame : c'.running = c0.running ∧ c'.id = c0.id ∧ c'.hasSetActionsRunning = c0.hasSetActionsRunning := by
      rw [← hc0eq]
      by_cases h0 : c0.id = cid <;> simp [h0]
    rw [hsame.1, hsame.2.1]
    exact hrun c0 hc0 (by rw [← hsame.2.2]; exact hcap')

theorem schedInv_abortControl (s : RunnerState) (cid : String) (skipUp : Bool)
    (h : SchedInv s) : SchedInv (s.abortControlDelayed cid skipUp) := by
  obtain ⟨⟨hnd, hbound⟩, hids, hrun⟩ := h
  unfold RunnerState.abortControlDelayed
  obtain ⟨f1, f2, f3, f4, f5⟩ := setControlIsRunning_frame
    ({ s with timers := s.timers.filter (fun t => t.controlId != cid) } : RunnerState) cid false skipUp
  have hctl := setControlIsRunning_controls
    ({ s with timers := s.timers.filter (fun t => t.controlId != cid) } : RunnerState) cid false skipUp
  have hcapeq : ({ s with timers := s.timers.filter (fun t => t.controlId != cid) } :
      RunnerState).capableControl cid = s.capableControl cid := rfl
  refine ⟨⟨?_, ?_⟩, ?_, ?_⟩
  · rw [f1]
    exact List.Nodup.sublist (List.Sublist.map _ (List.filter_sublist _)) hnd
  · rw [f1, f2]
    intro t ht
    exact hbound t (List.mem_of_mem_filter ht)
  · unfold IdsInv
    rw [hctl, hcapeq]
    by_cases hc : s.capableControl cid
    · simp only [hc, if_true]
      have hmu := map_update_ids cid (fun c => c.setActionsRunning false skipUp) (fun c => rfl) s.controls
      rw [hmu]
      exact hids
    · simp only [hc, Bool.false_eq_true, if_false]
      exact hids
  · intro c' hc' hcap'
    rw [f1]
    rw [hctl, hcapeq] at hc'
    by_cases hxc : c'.id = cid
    · rw [hxc, any_filter_self_false]
      by_cases hc : s.capableControl cid
      · rw [if_pos hc] at hc'
        obtain ⟨c0, hc0, hc0eq⟩ := List.mem_map.mp hc'
        by_cases h0 : c0.id = cid
        · have hce : c' = c0.setActionsRunning false skipUp := by rw [← hc0eq]; simp [h0]
          rw [hce]
          simp [setActionsRunning_running]
        · exfalso
          apply h0
          have : c' = c0 := by rw [← hc0eq]; simp [h0]
          rw [← this, hxc]
      · rw [if_neg (by simp [hc])] at hc'
        have := capOf_false_no_capable s.controls cid hids
          (by rw [← capableControl_eq_capOf]; simpa using hc) c' hc' hxc
        rw [hcap'] at this
        exact absurd this (by simp)
    · rw [any_filter_ne_controlId cid c'.id hxc]
      by_cases hc : s.capableControl cid
      · rw [if_pos hc] at hc'
        obtain ⟨c0, hc0, hc0eq⟩ := List.mem_map.mp hc'
        have h0 : ¬ c0.id = cid := by
          intro hcontra
          apply hxc
          rw [← hc0eq]
          simp [hcontra, setActionsRunning_id, hcontra]
        have hceq : c' = c0 := by rw [← hc0eq]; simp [h0]
        rw [hceq]
        exact hrun c0 hc0 (by rw [← hceq]; exact hcap')
      · rw [if_neg (by simp [hc])] at hc'
        exact hrun c' hc' hcap'

theorem schedInv_fire (s : RunnerState) (tid : Nat) (h : SchedInv s) :
    SchedInv (stepOp s (Op.fire tid)) := by
  obtain ⟨⟨hnd, hbound⟩, hids, hrun⟩ := h
  simp only [stepOp]
  cases hfind : s.timers.find? (fun t => t.tid == tid) with
  | none => exact ⟨⟨hnd, hbound⟩, hids, hrun⟩
  | some t =>
    have htmem := List.mem_of_find?_eq_some hfind
    obtain ⟨q1, q2, q3, q4, q5, q6⟩ := fireTimer_spec s t
    obtain ⟨l1, l2, hsplit, hfilt⟩ := timers_decomp t s.timers hnd htmem
    have hndnew : ((s.fireTimer t).timers.map (fun x => x.tid)).Nodup := by
      rw [q2]
      exact List.Nodup.sublist (List.Sublist.map _ (List.filter_sublist _)) hnd
    have hboundnew : ∀ u ∈ (s.fireTimer t).timers, u.tid < (s.fireTimer t).nextTid := by
      rw [q2, q4]
      intro u hu
      exact hbound u (List.mem_of_mem_filter hu)
    cases hany : (s.timers.filter (fun x => x.tid != t.tid)).any (fun x => x.controlId == t.controlId) with
    | true =>
      obtain ⟨hsig, hctls⟩ := q5 hany
      refine ⟨⟨hndnew, hboundnew⟩, ?_, ?_⟩
      · unfold IdsInv
        rw [hctls]
        exact hids
      · intro c' hc' hcap'
        rw [hctls] at hc'
        rw [q2]
        by_cases hxc : c'.id = t.controlId
        · constructor
          · intro _
            rw [hxc]
            exact hany
          · intro _
            apply (hrun c' hc' hcap').mpr
            rw [List.any_eq_true]
            exact ⟨t, htmem, by simp [hxc]⟩
        · have hrw : (s.timers.filter (fun x => x.tid != t.tid)).any (fun u => u.controlId == c'.id)
              = s.timers.any (fun u => u.controlId == c'.id) := by
            rw [hfilt, hsplit]
            exact (any_remove_ne l1 l2 t c'.id (by simp [Ne.symm hxc])).symm
          rw [hrw]
          exact hrun c' hc' hcap'
    | false =>
      obtain ⟨hsig, hctls⟩ := q6 hany
      refine ⟨⟨hndnew, hboundnew⟩, ?_, ?_⟩
      · unfold IdsInv
        rw [hctls]
        by_cases hc : s.capableControl t.controlId
        · simp only [hc, if_true]
          have hmu := map_update_ids t.controlId (fun c => c.setActionsRunning false false)
            (fun c => rfl) s.controls
          rw [hmu]
          exact hids
        · simp only [hc, Bool.false_eq_true, if_false]
          exact hids
      · intro c' hc' hcap'
        rw [q2]
        rw [hctls] at hc'
        by_cases hxc : c'.id = t.controlId
        · rw [hxc, hany]
          by_cases hc : s.capableControl t.controlId
          · rw [if_pos hc] at hc'
            obtain ⟨c0, hc0, hc0eq⟩ := List.mem_map.mp hc'
            by_cases h0 : c0.id = t.controlId
            · have hce : c' = c0.setActionsRunning false false := by rw [← hc0eq]; simp [h0]
              rw [hce]
              simp [setActionsRunning_running]
            · exfalso
              apply h0
              have hce : c' = c0 := by rw [← hc0eq]; simp [h0]
              rw [← hce, hxc]
          · rw [if_neg (by simp [hc])] at hc'
            have := capOf_false_no_capable s.controls t.controlId hids
              (by rw [← capableControl_eq_capOf]; simpa using hc) c' hc' hxc
            rw [hcap'] at this
            exact absurd this (by simp)
        · have hrw : (s.timers.filter (fun x => x.tid != t.tid)).any (fun u => u.controlId == c'.id)
              = s.timers.any (fun u => u.controlId == c'.id) := by
            rw [hfilt, hsplit]
            exact (any_remove_ne l1 l2 t c'.id (by simp [Ne.symm hxc])).symm
          rw [hrw]
          by_cases hc : s.capableControl t.controlId
          · rw [if_pos hc] at hc'
            obtain ⟨c0, hc0, hc0eq⟩ := List.mem_map.mp hc'
            have h0 : ¬ c0.id = t.controlId := by
              intro hcontra
              apply hxc
              rw [← hc0eq]
              simp [hcontra, setActionsRunning_id]
            have hce : c' = c0 := by rw [← hc0eq]; simp [h0]
            rw [hce]
            exact hrun c0 hc0 (by rw [← hce]; exact hcap')
          · rw [if_neg (by simp [hc])] at hc'
            exact hrun c' hc' hcap'

theorem schedInv_run (s : RunnerState) (actions0 : List ActionInstance) (cid : String)
    (rel : Bool) (h : SchedInv s) : SchedInv (s.runMultipleActions actions0 cid rel) := by
  obtain ⟨⟨hnd, hbound⟩, hids, hrun⟩ := h
  obtain ⟨h1, h2, h3, h4, h5, h6⟩ := runMultipleActions_spec s actions0 cid rel
  have hschedcid := scheduledTimers_controlId (effectiveDelaysFor (enabledOf actions0) rel) cid
  have hschedtids := scheduledTimers_tids (effectiveDelaysFor (enabledOf actions0) rel) cid
    (enabledOf actions0) s.nextTid
  refine ⟨⟨?_, ?_⟩, ?_, ?_⟩
  · rw [h1, List.map_append, hschedtids]
    rw [List.nodup_append]
    refine ⟨hnd, List.nodup_range' _ _, ?_⟩
    intro x hx hx2
    obtain ⟨u, hu, hueq⟩ := List.mem_map.mp hx
    obtain ⟨i, hilt, hieq⟩ := List.mem_range'.mp hx2
    have := hbound u hu
    omega
  · rw [h1, h4]
    intro u hu
    rcases List.mem_append.mp hu with hl | hr
    · have := hbound u hl
      omega
    · have hm : u.tid ∈ (scheduledTimers (effectiveDelaysFor (enabledOf actions0) rel) cid
          (enabledOf actions0) s.nextTid).map (fun t => t.tid) := List.mem_map.mpr ⟨u, hr, rfl⟩
      rw [hschedtids] at hm
      obtain ⟨i, hilt, hieq⟩ := List.mem_range'.mp hm
      omega
  · unfold IdsInv
    rw [h6]
    cases hcond : ((enabledOf actions0).any
        (fun a => decide (0 < delayTime (effectiveDelaysFor (enabledOf actions0) rel) a))
        && s.capableControl cid) with
    | true =>
      simp only [if_true]
      have hmu := map_update_ids cid (fun c => c.setActionsRunning true false)
        (fun c => rfl) s.controls
      rw [hmu]
      exact hids
    | false =>
      simp only [Bool.false_eq_true, if_false]
      exact hids
  · intro c' hc' hcap'
    rw [h1]
    rw [h6] at hc'
    cases hcond : ((enabledOf actions0).any
        (fun a => decide (0 < delayTime (effectiveDelaysFor (enabledOf actions0) rel) a))
        && s.capableControl cid) with
    | false =>
      rw [hcond] at hc'
      simp only [Bool.false_eq_true, if_false] at hc'
      by_cases hxc : c'.id = cid
      · by_cases hcapc : s.capableControl cid = true
        · have hanyf : (enabledOf actions0).any
              (fun a => decide (0 < delayTime (effectiveDelaysFor (enabledOf actions0) rel) a)) = false := by
            rcases Bool.and_eq_false_iff.mp hcond with ha | hb
            · exact ha
            · rw [hcapc] at hb
              exact absurd hb (by simp)
          have hnil : scheduledTimers (effectiveDelaysFor (enabledOf actions0) rel) cid
              (enabledOf actions0) s.nextTid = [] :=
            (scheduledTimers_eq_nil_iff _ _ _ _).mpr hanyf
          rw [hnil, List.append_nil]
          exact hrun c' hc' hcap'
        · have := capOf_false_no_capable s.controls cid hids
            (by rw [← capableControl_eq_capOf]; simpa using hcapc) c' hc' hxc
          rw [hcap'] at this
          exact absurd this (by simp)
      · rw [List.any_append]
        have hschedany : (scheduledTimers (effectiveDelaysFor (enabledOf actions0) rel) cid
            (enabledOf actions0) s.nextTid).any (fun t => t.controlId == c'.id) = false := by
          rw [List.any_eq_false]
          intro u hu
          have := hschedcid (enabledOf actions0) s.nextTid u hu
          simp [this, Ne.symm hxc]
        rw [hschedany]
        simp only [Bool.or_false]
        exact hrun c' hc' hcap'
    | true =>
      rw [hcond] at hc'
      simp only [if_true] at hc'
      obtain ⟨hany, hcapc⟩ := (Bool.and_eq_true _ _).mp hcond
      have hnn : scheduledTimers (effectiveDelaysFor (enabledOf actions0) rel) cid
          (enabledOf actions0) s.nextTid ≠ [] := by
        intro hnil
        have := (scheduledTimers_eq_nil_iff _ _ _ _).mp hnil
        rw [hany] at this
        exact absurd this (by simp)
      obtain ⟨c0, hc0, hc0eq⟩ := List.mem_map.mp hc'
      by_cases h0 : c0.id = cid
      · have hce : c' = c0.setActionsRunning true false := by rw [← hc0eq]; simp [h0]
        constructor
        · intro _
          rw [List.any_append]
          have : (scheduledTimers (effectiveDelaysFor (enabledOf actions0) rel) cid
              (enabledOf actions0) s.nextTid).any (fun t => t.controlId == c'.id) = true := by
            obtain ⟨u, hu⟩ := List.exists_mem_of_ne_nil _ hnn
            rw [List.any_eq_true]
            refine ⟨u, hu, ?_⟩
            have := hschedcid (enabledOf actions0) s.nextTid u hu
            simp [this, hce, setActionsRunning_id, h0]
          rw [this]
          simp
        · intro _
          rw [hce]
          exact setActionsRunning_running c0 true false
      · have hce : c' = c0 := by rw [← hc0eq]; simp [h0]
        rw [List.any_append]
        have hschedany : (scheduledTimers (effectiveDelaysFor (enabledOf actions0) rel) cid
            (enabledOf actions0) s.nextTid).any (fun t => t.controlId == c'.id) = false := by
          rw [List.any_eq_false]
          intro u hu
          have := hschedcid (enabledOf actions0) s.nextTid u hu
          rw [hce]
          simp [this, Ne.symm h0]
        rw [hschedany]
        simp only [Bool.or_false]
        rw [hce]
        exact hrun c0 hc0 (by rw [← hce]; exact hcap')

theorem schedInv_abortAll (s : RunnerState) (h : SchedInv s) :
    SchedInv (s.abortAllDelayed) := by
  obtain ⟨⟨hnd, hbound⟩, hids, hrun⟩ := h
  unfold RunnerState.abortAllDelayed
  obtain ⟨g1, g2, g3⟩ := foldCIR_false_spec (dedupFirst (s.timers.map (fun t => t.controlId)))
    { s with timers := [] }
  refine ⟨⟨?_, ?_⟩, ?_, ?_⟩
  · rw [g1]
    simp
  · rw [g1]
    intro t ht
    simp at ht
  · unfold IdsInv
    rw [g3]
    exact hids
  · intro c' hc' hcap'
    rw [g1]
    simp only [List.any_nil]
    obtain ⟨c0, hc0, hid0, hcap0, hrel0⟩ := foldCIR_false_controls_mem
      (dedupFirst (s.timers.map (fun t => t.controlId))) { s with timers := [] } c' hc'
    have hrunfalse : c'.running = false := by
      rcases hrel0 with hce | hce
      · by_cases hr0 : c0.running = true
        · have hmem0 : c0.id ∈ s.timers.map (fun t => t.controlId) := by
            have hany0 := (hrun c0 hc0 (by rw [← hcap0]; exact hcap')).mp hr0
            rw [List.any_eq_true] at hany0
            obtain ⟨u, hu, hup⟩ := hany0
            rw [List.mem_map]
            exact ⟨u, hu, by simpa using hup⟩
          exact foldCIR_false_running (dedupFirst (s.timers.map (fun t => t.controlId)))
            { s with timers := [] } hids c' hc' hcap'
            ((dedupFirst_mem _ c'.id).mpr (by rw [hid0]; exact hmem0))
        · rw [hce]
          simpa using hr0
      · rw [hce]
        exact setActionsRunning_running c0 false false
    simp [hrunfalse]

theorem abortPage_body_inv (s : RunnerState) (page i : Nat) (skipIds : Option (List String))
    (h : SchedInv s) :
    SchedInv (if (match skipIds with
        | some ids => ids.contains (CreateBankControlId page (i + 1))
        | none => false) then s
      else s.abortControlDelayed (CreateBankControlId page (i + 1)) false) := by
  split
  · exact h
  · exact schedInv_abortControl s _ false h

theorem schedInv_abortPage (s : RunnerState) (page : Nat) (skipIds : Option (List String))
    (h : SchedInv s) : SchedInv (s.abortPageDelayed page skipIds) := by
  unfold RunnerState.abortPageDelayed
  generalize List.range MAX_BUTTONS = l
  induction l generalizing s with
  | nil => exact h
  | cons i rest ih =>
    simp only [List.foldl_cons]
    apply ih
    exact abortPage_body_inv s page i skipIds h

theorem schedInv_step (s : RunnerState) (op : Op) (h : SchedInv s) : SchedInv (stepOp s op) := by
  cases op with
  | runActs a c r => exact schedInv_run s a c r h
  | fire tid => exact schedInv_fire s tid h
  | abortControl c k => exact schedInv_abortControl s c k h
  | abortPage p ids => exact schedInv_abortPage s p ids h
  | abortAll => exact schedInv_abortAll s h
  | press c => exact schedInv_press s c h

theorem schedInv_exec : ∀ (ops : List Op) (s : RunnerState), SchedInv s → SchedInv (execOps s ops) := by
  intro ops
  induction ops with
  | nil => intro s h; exact h
  | cons op rest ih =>
    intro s h
    exact ih (stepOp s op) (schedInv_step s op h)

theorem schedInv_init (ctrls conns : List (String × Bool))
    (hids : (ctrls.map Prod.fst).Nodup) : SchedInv (initState ctrls conns) := by
  refine ⟨⟨by simp [initState], by simp [initState]⟩, ?_, ?_⟩
  · unfold IdsInv initState
    simp only [List.map_map]
    exact hids
  · intro c hc _
    simp only [initState] at hc
    obtain ⟨p, _, hpeq⟩ := List.mem_map.mp hc
    constructor
    · intro hr
      rw [← hpeq] at hr
      simp at hr
    · intro ha
      simp [initState] at ha

/-- C4: in every state reachable from a quiescent scheduler by any
sequence of `runMultipleActions` calls, timer firings,
`abortControlDelayed`, `abortPageDelayed` and `abortAllDelayed` calls
(and the spec-modelled press marking), a registered control exposing
`setActionsRunning` has its running flag true exactly when the
scheduler holds at least one pending timer owned by that control's
id. -/
theorem running_iff_pending_timer (ctrls conns : List (String × Bool)) (ops : List Op)
    (hids : (ctrls.map Prod.fst).Nodup) :
    ∀ c ∈ (execOps (initState ctrls conns) ops).controls,
      c.hasSetActionsRunning = true →
      (c.running = true ↔
        (execOps (initState ctrls conns) ops).timers.any
          (fun t => t.controlId == c.id) = true) :=
  (schedInv_exec ops (initState ctrls conns) (schedInv_init ctrls conns hids)).2.2

/-- Witness for C4 at a concrete input: after one run scheduling a
single delayed action, control c1 is running and owns a pending
timer. -/
theorem running_iff_pending_timer_witness :
    ((⟨"c1", true, true, false⟩ : ControlState).running = true
      ↔ (execOps (initState [("c1", true)] [("conn", true)])
          [Op.runActs [⟨"d1", "conn", DelayField.num 5, false⟩] "c1" false]).timers.any
          (fun t => t.controlId == (⟨"c1", true, true, false⟩ : ControlState).id) = true) :=
  running_iff_pending_timer [("c1", true)] [("conn", true)]
    [Op.runActs [⟨"d1", "conn", DelayField.num 5, false⟩] "c1" false] (by decide)
    ⟨"c1", true, true, false⟩ (by decide) (by decide)

end Companion
